import Mathlib

/-!
Verification of `fake.go` (package `fake`).

A shallow embedding of the sample-resolution pipeline of `src/fake.go`:
the language registry (`GetLangs`, `SetLang`), the sample cache
(`samplesTree`, `hasKeyPath`), the resource reader (`readFile`), lazy
population (`populateSamples`), the resolver (`lookup`) and the template
expander (`generate`).

Modelling conventions.

* A Go string is a byte sequence.  It is represented by the sequence of
  elements a `for _, ru := range s` loop visits: every maximal valid UTF-8
  encoding is one `GoChar.rune`, every byte that is not part of one is a
  `GoChar.bad`.  Every Go string has exactly one such decomposition, and the
  ASCII bytes (newline, `#`, `/`, digits) are always runes of their own.
* The package-level variables are the fields of `State`; every function takes
  the state and returns the new one.
* `r.Intn(n)` panics for `n ≤ 0` and otherwise yields a value below `n`; the
  generator is a stream of naturals, reduced modulo `n`.
* The generated table `data` and the file systems behind `FS(flag)` are not
  part of `src/`; they are parameters of the functions that use them.
* A run-time panic (index out of range, `Intn` on a non-positive argument) is
  the result `Fault.panic`.
-/

namespace Fake

/-! ## Go strings -/

/-- One element of a Go string as a range loop sees it: a decoded code point,
or a byte that does not belong to a valid UTF-8 encoding. -/
inductive GoChar where
  | rune (c : Char)
  | bad (b : Nat)
  deriving DecidableEq, Repr

/-- A Go string, as the sequence of its elements. -/
abbrev GoStr := List GoChar

/-- A string literal of the source (always valid UTF-8). -/
def lit (s : String) : GoStr := s.toList.map GoChar.rune

/-- The built-in `len(s)`: the number of bytes of a string. -/
def byteLen : GoStr → Nat
  | [] => 0
  | GoChar.rune c :: s => c.utf8Size + byteLen s
  | GoChar.bad _ :: s => 1 + byteLen s

/-- The element is a decoded code point, not a stray byte. -/
def GoChar.isRune : GoChar → Bool
  | GoChar.rune _ => true
  | GoChar.bad _ => false

/-- The string is valid UTF-8: no element is a stray byte. -/
def validUTF8 (s : GoStr) : Prop := ∀ g ∈ s, g.isRune = true

/-- The value the range loop binds to `ru` at an element: the code point, or
`utf8.RuneError` (U+FFFD) at an invalid byte. -/
def GoChar.toRune : GoChar → Char
  | GoChar.rune c => c
  | GoChar.bad _ => Char.ofNat 0xFFFD

/-- The newline, the one-byte separator passed to `strings.Split`. -/
def newline : GoChar := GoChar.rune (Char.ofNat 10)

/-- The placeholder `'#'` of `generate`. -/
def hash : Char := '#'

/-- The code points `unicode.IsSpace` accepts. -/
def unicodeIsSpace (c : Char) : Bool :=
  let n := c.toNat
  (9 ≤ n && n ≤ 13) || n == 0x20 || n == 0x85 || n == 0xA0 || n == 0x1680 ||
  (0x2000 ≤ n && n ≤ 0x200A) || n == 0x2028 || n == 0x2029 || n == 0x202F ||
  n == 0x205F || n == 0x3000

/-- White space as `strings.TrimSpace` sees it; an invalid byte decodes to
U+FFFD, which is not white space. -/
def isSpace : GoChar → Bool
  | GoChar.rune c => unicodeIsSpace c
  | GoChar.bad _ => false

/-- Go `strings.TrimSpace`: all leading and trailing white space removed. -/
def TrimSpace (s : GoStr) : GoStr :=
  ((s.dropWhile isSpace).reverse.dropWhile isSpace).reverse

/-- Go `strings.Split(s, sep)` for a one-byte separator: the pieces between
the occurrences of `sep`; a string without `sep` gives the one-element slice
holding `s` itself. -/
def Split (s : GoStr) (sep : GoChar) : List GoStr :=
  match s with
  | [] => [[]]
  | c :: cs =>
    if c = sep then [] :: Split cs sep
    else
      match Split cs sep with
      | [] => [[c]]
      | piece :: pieces => (c :: piece) :: pieces

/-- Whether `s` begins with `p`. -/
def startsWith : GoStr → GoStr → Bool
  | _, [] => true
  | [], _ :: _ => false
  | c :: s, d :: p => c == d && startsWith s p

/-- Go `strings.Replace(s, old, "", 1)` for a non-empty `old`: the first
occurrence of `old` is removed. -/
def removeFirst (s old : GoStr) : GoStr :=
  match s with
  | [] => []
  | c :: cs => if startsWith (c :: cs) old then (c :: cs).drop old.length else c :: removeFirst cs old

/-- Go `strconv.Itoa` on a non-negative integer. -/
def Itoa (n : Nat) : GoStr := lit (Nat.repr n)

/-! ## The random source `r` -/

/-- The generator `r`: the stream of values it will yield. -/
structure Rand where
  next : Nat → Nat

/-- The method `r.Intn(n)`: `none` is the panic on `n ≤ 0`; otherwise the draw,
which is below `n`, and the advanced generator. -/
def Rand.Intn (r : Rand) (n : Nat) : Option (Nat × Rand) :=
  if n = 0 then none else some (r.next 0 % n, ⟨fun i => r.next (i + 1)⟩)

/-! ## The sample cache -/

/-- The type `samplesTree`, `map[string]map[string][]string`. -/
abbrev samplesTree := GoStr → Option (GoStr → Option (List GoStr))

/-- The value `make(samplesTree)`. -/
def samplesTree.empty : samplesTree := fun _ => none

/-- The method `hasKeyPath`. -/
def samplesTree.hasKeyPath (st : samplesTree) (lang cat : GoStr) : Bool :=
  match st lang with
  | some inner =>
    match inner cat with
    | some _ => true
    | none => false
  | none => false

/-- The expression `st[lang][cat]`: the stored pool, or nil (`[]`) when a key
is missing. -/
def samplesTree.get (st : samplesTree) (lang cat : GoStr) : List GoStr :=
  match st lang with
  | some inner => (inner cat).getD []
  | none => []

/-- The pool stored under a key path, when there is one. -/
def samplesTree.pool (st : samplesTree) (lang cat : GoStr) : Option (List GoStr) :=
  match st lang with
  | some inner => inner cat
  | none => none

/-- The statement `samplesCache[lang] = make(map[string][]string)`. -/
def samplesTree.makeInner (st : samplesTree) (lang : GoStr) : samplesTree :=
  fun l => if l = lang then some (fun _ => none) else st l

/-- The statement `samplesCache[lang][cat] = samples` (the inner map exists at
every call site; an assignment into a nil map would panic). -/
def samplesTree.put (st : samplesTree) (lang cat : GoStr) (samples : List GoStr) :
    samplesTree :=
  fun l =>
    if l = lang then
      some (fun c => if c = cat then some samples else
        match st lang with
        | some inner => inner c
        | none => none)
    else st l

/-! ## The data source -/

/-- What `FS(flag).Open(path)` followed by `ioutil.ReadAll` gives. -/
inductive Resource where
  | absent
  | unreadable (msg : GoStr)
  | content (d : GoStr)
  deriving DecidableEq, Repr

/-- The two file systems behind `FS(useExternalData)`, by flag and path. -/
abbrev DataSource := Bool → GoStr → Resource

/-! ## Package state -/

/-- The package-level variables, and the log of Resource Reader calls. -/
structure State where
  samplesCache : samplesTree
  r : Rand
  lang : GoStr
  useExternalData : Bool
  enFallback : Bool
  availLangs : List GoStr
  /-- Every call of `readFile`, most recent first, as (lang, cat). -/
  reads : List (GoStr × GoStr)

/-- A run-time failure: a Go panic, or the recursion budget of the model. -/
inductive Fault where
  | panic
  | outOfFuel
  deriving DecidableEq, Repr

/-- The message of `ErrNoLanguageFn(lang)`. -/
def ErrNoLanguageFn (lang : GoStr) : GoStr :=
  lit "The language passed (" ++ lang ++ lit ") is not available"

/-- The message of `ErrNoSamplesFn(lang)`. -/
def ErrNoSamplesFn (lang : GoStr) : GoStr :=
  lit "No samples found for language: " ++ lang

/-! ## The language registry -/

/-- The function `GetLangs`; `data` lists the entries of the generated table, key
and `isDir`, in the order the range statement visits them. -/
def GetLangs (data : List (GoStr × Bool)) : List GoStr :=
  data.foldl
    (fun langs kv =>
      if kv.2 && kv.1 != lit "/" && kv.1 != lit "/data" then
        langs ++ [removeFirst kv.1 (lit "/data/")]
      else langs)
    []

/-- The package state after initialisation. -/
def State.init (data : List (GoStr × Bool)) (seed : Rand) : State where
  samplesCache := samplesTree.empty
  r := seed
  lang := lit "en"
  useExternalData := false
  enFallback := true
  availLangs := GetLangs data
  reads := []

/-- The loop of `SetLang`: whether `newLang` occurs in the list. -/
def SetLang.found (newLang : GoStr) : List GoStr → Bool
  | [] => false
  | l :: ls => if newLang = l then true else SetLang.found newLang ls

/-- The function `SetLang`: the returned error (`none` is nil) and the new state. -/
def SetLang (s : State) (newLang : GoStr) : Option GoStr × State :=
  if !SetLang.found newLang s.availLangs then
    (some (ErrNoLanguageFn newLang), s)
  else
    (none, { s with lang := newLang })

/-- The function `UseExternalData`. -/
def UseExternalData (s : State) (flag : Bool) : State :=
  { s with useExternalData := flag }

/-- The function `EnFallback`. -/
def EnFallback (s : State) (flag : Bool) : State :=
  { s with enFallback := flag }

/-! ## Reader, population, resolver, expander -/

/-- The path `fmt.Sprintf("/data/%s/%s", lang, cat)`. -/
def fullpath (lang cat : GoStr) : GoStr :=
  lit "/data/" ++ lang ++ lit "/" ++ cat

/-- The function `readFile`: the bytes, or the message of the returned error. -/
def readFile (fs : DataSource) (s : State) (lang cat : GoStr) :
    Except GoStr GoStr × State :=
  let s1 := { s with reads := (lang, cat) :: s.reads }
  match fs s.useExternalData (fullpath lang cat) with
  | Resource.absent => (Except.error (ErrNoSamplesFn lang), s1)
  | Resource.unreadable msg => (Except.error msg, s1)
  | Resource.content d => (Except.ok d, s1)

/-- The function `populateSamples`. -/
def populateSamples (fs : DataSource) (s : State) (lang cat : GoStr) :
    Except GoStr (List GoStr) × State :=
  match readFile fs s lang cat with
  | (Except.error err, s1) => (Except.error err, s1)
  | (Except.ok data, s1) =>
    let tree :=
      match s1.samplesCache lang with
      | some _ => s1.samplesCache
      | none => s1.samplesCache.makeInner lang
    let samples := Split (TrimSpace data) newline
    (Except.ok samples, { s1 with samplesCache := tree.put lang cat samples })

/-- The expression `samples[r.Intn(len(samples))]`. -/
def pick (s : State) (samples : List GoStr) : Except Fault (GoStr × State) :=
  match s.r.Intn samples.length with
  | none => Except.error Fault.panic
  | some (i, r1) =>
    match samples.get? i with
    | none => Except.error Fault.panic
    | some x => Except.ok (x, { s with r := r1 })

/-- The function `lookup`, with a budget for the recursion depth. -/
def lookupFuel : Nat → DataSource → State → GoStr → GoStr → Bool →
    Except Fault (GoStr × State)
  | 0, _, _, _, _, _ => Except.error Fault.outOfFuel
  | fuel + 1, fs, s, lang, cat, fallback =>
    if s.samplesCache.hasKeyPath lang cat then
      pick s (s.samplesCache.get lang cat)
    else
      match populateSamples fs s lang cat with
      | (Except.error err, s1) =>
        if lang ≠ lit "en" ∧ fallback = true ∧ s1.enFallback = true ∧
            err = ErrNoSamplesFn lang then
          lookupFuel fuel fs s1 (lit "en") cat false
        else Except.ok ([], s1)
      | (Except.ok samples, s1) => pick s1 samples

/-- The function `lookup`: two levels of recursion are all it ever uses. -/
def lookup (fs : DataSource) (s : State) (lang cat : GoStr) (fallback : Bool) :
    Except Fault (GoStr × State) :=
  lookupFuel 2 fs s lang cat fallback

/-- The loop of `generate` over the elements of `format`, appending to `result`. -/
def expand : GoStr → GoStr → Rand → Except Fault (GoStr × Rand)
  | [], result, r => Except.ok (result, r)
  | c :: format, result, r =>
    if c.toRune ≠ hash then
      expand format (result ++ [GoChar.rune c.toRune]) r
    else
      match r.Intn 10 with
      | none => Except.error Fault.panic
      | some (d, r1) => expand format (result ++ Itoa d) r1

/-- The function `generate`; the parameter `lag` is not used by the body, which
reads the package variable `lang`. -/
def generate (fs : DataSource) (s : State) (_lag cat : GoStr) (fallback : Bool) :
    Except Fault (GoStr × State) :=
  match lookup fs s s.lang (cat ++ lit "_format") fallback with
  | Except.error f => Except.error f
  | Except.ok (format, s1) =>
    match expand format [] s1.r with
    | Except.error f => Except.error f
    | Except.ok (result, r1) => Except.ok (result, { s1 with r := r1 })

/-! ## Runs of the package -/

/-- One operation of the package, run to completion on a data source. -/
inductive Step : State → State → Prop
  | lookup (fs : DataSource) (s : State) (lang cat : GoStr) (fallback : Bool)
      (v : GoStr) (s1 : State) :
      lookup fs s lang cat fallback = Except.ok (v, s1) → Step s s1
  | generate (fs : DataSource) (s : State) (lag cat : GoStr) (fallback : Bool)
      (v : GoStr) (s1 : State) :
      generate fs s lag cat fallback = Except.ok (v, s1) → Step s s1
  | setLang (s : State) (newLang : GoStr) : Step s (SetLang s newLang).2
  | useExternalData (s : State) (flag : Bool) : Step s (UseExternalData s flag)
  | enFallback (s : State) (flag : Bool) : Step s (EnFallback s flag)

/-- Any finite sequence of operations, each on a data source of its own (the
external files may change between calls). -/
inductive Steps : State → State → Prop
  | refl (s : State) : Steps s s
  | tail (s s1 s2 : State) : Steps s s1 → Step s1 s2 → Steps s s2

/-- The states a program can be in: those the operations lead to from the
state after initialisation. -/
def Reachable (s : State) : Prop :=
  ∃ data seed, Steps (State.init data seed) s

/-- The returned string of a call, when it returns. -/
def value (res : Except Fault (GoStr × State)) : Option GoStr :=
  match res with
  | Except.ok (v, _) => some v
  | Except.error _ => none

/-- The pool `populateSamples` builds from a resource content. -/
def poolOf (d : GoStr) : List GoStr := Split (TrimSpace d) newline

/-- Two newlines in a row somewhere in the string. -/
def twoNewlines : GoStr → Bool
  | [] => false
  | [_] => false
  | a :: b :: rest => (a == newline && b == newline) || twoNewlines (b :: rest)

/-- The state with one more call of `readFile` logged. -/
def State.logRead (s : State) (lang cat : GoStr) : State :=
  { s with reads := (lang, cat) :: s.reads }

/-- The cache after `populateSamples` has stored a pool. -/
def samplesTree.populated (st : samplesTree) (lang cat : GoStr) (samples : List GoStr) :
    samplesTree :=
  (match st lang with
    | some _ => st
    | none => st.makeInner lang).put lang cat samples

/-- The state after a successful `populateSamples`. -/
def State.stored (s : State) (lang cat : GoStr) (samples : List GoStr) : State :=
  { s.logRead lang cat with
    samplesCache := s.samplesCache.populated lang cat samples }

/-- The message of the error `readFile` returns on a resource, when it fails. -/
def Resource.failure (res : Resource) (lang : GoStr) : Option GoStr :=
  match res with
  | Resource.absent => some (ErrNoSamplesFn lang)
  | Resource.unreadable msg => some msg
  | Resource.content _ => none

/-- The test of `lookup` for answering a failed read from the English pool. -/
def fallsBack (s : State) (lang : GoStr) (fallback : Bool) (err : GoStr) : Prop :=
  lang ≠ lit "en" ∧ fallback = true ∧ s.enFallback = true ∧ err = ErrNoSamplesFn lang

instance (s : State) (lang : GoStr) (fallback : Bool) (err : GoStr) :
    Decidable (fallsBack s lang fallback err) := by
  unfold fallsBack; infer_instance

/-! ## Concrete data for the examples -/

/-- A generator all of whose draws are `n`. -/
def constRand (n : Nat) : Rand := ⟨fun _ => n⟩

/-- A table with two language directories and one file. -/
def sampleData : List (GoStr × Bool) :=
  [(lit "/", true), (lit "/data", true), (lit "/data/en", true), (lit "/data/fr", true),
   (lit "/data/en/x", false)]

/-- The state of a freshly initialised package. -/
def freshState : State := State.init sampleData (constRand 0)

/-- A data source holding, in both modes, the single file `path`. -/
def oneFile (path d : GoStr) : DataSource :=
  fun _ p => if p = path then Resource.content d else Resource.absent

/-! ## Vocabulary of the statements -/

/-- The decimal digit characters `'0'` to `'9'`. -/
def isDigit (g : GoChar) : Prop := ∃ d, d < 10 ∧ g = GoChar.rune (Char.ofNat (48 + d))

/-- What the loop of `generate` makes of one element of the format. -/
def expandsTo (g o : GoChar) : Prop :=
  (g.toRune = hash → isDigit o) ∧ (g.toRune ≠ hash → o = GoChar.rune g.toRune)

/-- Every pool stored in the cache has at least one element. -/
def PoolsNonEmpty (s : State) : Prop :=
  ∀ l c p, s.samplesCache.pool l c = some p → p ≠ []

/-- The cache of `s1` is the cache of `s` with pools added under key paths that
held none: no pool of `s` is removed or replaced, and every new pool is the
pool built from some resource content. -/
def Grows (s s1 : State) : Prop :=
  ∀ l c, s1.samplesCache.pool l c = s.samplesCache.pool l c ∨
    (s.samplesCache.pool l c = none ∧ ∃ d, s1.samplesCache.pool l c = some (poolOf d))

/-- A data source whose embedded files are `/data/fr/x`, holding `bonjour`, and
whose external files are `/data/en/x`, holding `hello`. -/
def twoModes : DataSource :=
  fun ext p =>
    if ext then
      (if p = lit "/data/en/x" then Resource.content (lit "hello") else Resource.absent)
    else
      (if p = lit "/data/fr/x" then Resource.content (lit "bonjour") else Resource.absent)

/-- The state after `lookup("fr", "x", true)` on the embedded files of
`twoModes`, the only draw of which is 0. -/
def frCached : State :=
  { (freshState.stored (lit "fr") (lit "x") [lit "bonjour"]) with r := ⟨fun _ => 0⟩ }

/-- The state `frCached` after `UseExternalData(true)`: the pool of ("fr", "x")
is cached, and the files now in use have no `/data/fr/x`. -/
def staleState : State := UseExternalData frCached true

/-- The pool a lookup answered from English draws from: the cached pool of
("en", C), or the pool built from the resource content D when none is cached. -/
def enPool (s : State) (C D : GoStr) : List GoStr :=
  (s.samplesCache.pool (lit "en") C).getD (poolOf D)

/-- A data source whose embedded files are `/data/en/x`, holding `hello`, and
which has no external file. -/
def embeddedOnly : DataSource :=
  fun ext p =>
    if ext then Resource.absent
    else (if p = lit "/data/en/x" then Resource.content (lit "hello") else Resource.absent)

/-- The state after `lookup("en", "x", true)` on the embedded files of
`embeddedOnly`; the only draw is 0. -/
def enCached : State :=
  { (freshState.stored (lit "en") (lit "x") [lit "hello"]) with r := ⟨fun _ => 0⟩ }

/-- The state `enCached` after `UseExternalData(true)`: the pool of ("en", "x")
is cached, and the files now in use have no `/data/en/x`. -/
def enStale : State := UseExternalData enCached true

/-- A data source without any file. -/
def noFiles : DataSource := fun _ _ => Resource.absent

/-- The entry the loop of `GetLangs` appends for one table entry, if any. -/
def langEntry (kv : GoStr × Bool) : Option GoStr :=
  if kv.2 && kv.1 != lit "/" && kv.1 != lit "/data" then
    some (removeFirst kv.1 (lit "/data/"))
  else none

/-- The key `k` names a directory located directly under `/data`, called `name`. -/
def directlyUnder (k name : GoStr) : Prop :=
  k = lit "/data/" ++ name ∧ name ≠ [] ∧ GoChar.rune '/' ∉ name

/-- The name of a table entry that is a directory directly under `/data`. -/
def topLevelName (kv : GoStr × Bool) : Option GoStr :=
  if kv.2 = true ∧ startsWith kv.1 (lit "/data/") = true ∧
      kv.1.drop 6 ≠ [] ∧ GoChar.rune '/' ∉ kv.1.drop 6 then
    some (kv.1.drop 6)
  else none

/-- A table with a directory nested below a language directory. -/
def nestedData : List (GoStr × Bool) :=
  [(lit "/", true), (lit "/data", true), (lit "/data/en", true),
   (lit "/data/en/sub", true), (lit "/data/en/x", false)]

/-- The state after `lookup("en", "x", true)` on a data source whose only file
is `/data/en/x`, which is empty. -/
def emptyCached : State :=
  { (freshState.stored (lit "en") (lit "x") [[]]) with r := ⟨fun _ => 0⟩ }

/-- Go `strings.Join(parts, sep)`. -/
def Join : List GoStr → GoStr → GoStr
  | [], _ => []
  | [a], _ => a
  | a :: b :: rest, sep => a ++ sep ++ Join (b :: rest) sep

/-- The log of Resource Reader calls after a call, when it returns. -/
def readsOf (res : Except Fault (GoStr × State)) : Option (List (GoStr × GoStr)) :=
  match res with
  | Except.ok (_, s) => some s.reads
  | Except.error _ => none

/-- The state `staleState` after `lookup("fr", "x", true)` on `twoModes`. -/
def staleAfter : State := { staleState with r := ⟨fun _ => 0⟩ }

/-- A fresh package after `UseExternalData(true)`. -/
def extFresh : State := UseExternalData freshState true

/-- The state `extFresh` after `lookup("fr", "x", true)` on `twoModes`, which is
answered from the external file `/data/en/x`. -/
def enViaFallback : State :=
  { ((extFresh.logRead (lit "fr") (lit "x")).stored (lit "en") (lit "x") [lit "hello"]) with
    r := ⟨fun _ => 0⟩ }

/-- The state `enViaFallback` after `UseExternalData(false)` and a second
`lookup("fr", "x", true)` on `twoModes`, which reads the embedded file
`/data/fr/x`. -/
def frLater : State :=
  { ((UseExternalData enViaFallback false).stored (lit "fr") (lit "x") [lit "bonjour"]) with
    r := ⟨fun _ => 0⟩ }

/-- The state `frLater` after `UseExternalData(true)`: the external files are in
use again. -/
def extAgain : State := UseExternalData frLater true

/-- A data source whose file `/data/fr/x` opens but cannot be read, the error
being `msg`, and whose file `/data/en/x` holds `hello`. -/
def brokenFr (msg : GoStr) : DataSource :=
  fun _ p =>
    if p = lit "/data/fr/x" then Resource.unreadable msg
    else if p = lit "/data/en/x" then Resource.content (lit "hello")
    else Resource.absent

/-! ## Auxiliary lemmas -/

theorem Split_ne_nil (s : GoStr) (sep : GoChar) : Split s sep ≠ [] := by
  cases s with
  | nil => simp [Split]
  | cons c cs =>
    unfold Split
    split
    · simp
    · split <;> simp

theorem poolOf_ne_nil (d : GoStr) : poolOf d ≠ [] := Split_ne_nil _ _

theorem pick_ok (s : State) (samples : List GoStr) (h : samples ≠ []) :
    ∃ v r1, pick s samples = Except.ok (v, { s with r := r1 }) ∧ v ∈ samples := by
  have hlen : samples.length ≠ 0 := by
    intro h0; exact h (List.length_eq_zero.mp h0)
  have hlt : s.r.next 0 % samples.length < samples.length :=
    Nat.mod_lt _ (Nat.pos_of_ne_zero hlen)
  refine ⟨samples.get ⟨_, hlt⟩, ⟨fun i => s.r.next (i + 1)⟩, ?_, List.get_mem _ _ _⟩
  simp [pick, Rand.Intn, hlen, List.getElem?_eq_getElem hlt]

theorem hasKeyPath_eq (st : samplesTree) (l c : GoStr) :
    st.hasKeyPath l c = (st.pool l c).isSome := by
  unfold samplesTree.hasKeyPath samplesTree.pool
  cases st l with
  | none => rfl
  | some inner => cases hc : inner c <;> simp [hc]

theorem get_of_pool (st : samplesTree) (l c : GoStr) (p : List GoStr)
    (h : st.pool l c = some p) : st.get l c = p := by
  unfold samplesTree.get
  unfold samplesTree.pool at h
  cases hl : st l with
  | none => simp [hl] at h
  | some inner => simp [hl] at h; simp [h]

theorem pool_populated (st : samplesTree) (lang cat : GoStr) (samples : List GoStr)
    (l c : GoStr) :
    (st.populated lang cat samples).pool l c =
      if l = lang ∧ c = cat then some samples else st.pool l c := by
  unfold samplesTree.populated samplesTree.pool samplesTree.put samplesTree.makeInner
  by_cases hl : l = lang
  · subst hl
    by_cases hc : c = cat
    · simp [hc]
    · cases hst : st l <;> simp [hc, hst]
  · simp [hl]
    cases hst : st lang <;> simp [hl]


theorem populateSamples_fail (fs : DataSource) (s : State) (l c e : GoStr)
    (h : (fs s.useExternalData (fullpath l c)).failure l = some e) :
    populateSamples fs s l c = (Except.error e, s.logRead l c) := by
  unfold populateSamples readFile
  cases hr : fs s.useExternalData (fullpath l c) <;>
    simp_all [Resource.failure, State.logRead]

theorem populateSamples_ok (fs : DataSource) (s : State) (l c d : GoStr)
    (h : fs s.useExternalData (fullpath l c) = Resource.content d) :
    populateSamples fs s l c = (Except.ok (poolOf d), s.stored l c (poolOf d)) := by
  unfold populateSamples readFile
  simp [h, State.stored, State.logRead, samplesTree.populated, poolOf]

theorem hasKeyPath_of_pool (st : samplesTree) (l c : GoStr) (p : List GoStr)
    (h : st.pool l c = some p) : st.hasKeyPath l c = true := by
  simp [hasKeyPath_eq, h]

theorem hasKeyPath_of_none (st : samplesTree) (l c : GoStr)
    (h : st.pool l c = none) : st.hasKeyPath l c = false := by
  simp [hasKeyPath_eq, h]

theorem lookupFuel_cached (n : Nat) (fs : DataSource) (s : State) (l c : GoStr)
    (fb : Bool) (p : List GoStr) (h : s.samplesCache.pool l c = some p) :
    lookupFuel (n + 1) fs s l c fb = pick s p := by
  simp [lookupFuel, hasKeyPath_of_pool _ _ _ _ h, get_of_pool _ _ _ _ h]

theorem lookupFuel_content (n : Nat) (fs : DataSource) (s : State) (l c : GoStr)
    (fb : Bool) (d : GoStr) (h : s.samplesCache.pool l c = none)
    (hd : fs s.useExternalData (fullpath l c) = Resource.content d) :
    lookupFuel (n + 1) fs s l c fb = pick (s.stored l c (poolOf d)) (poolOf d) := by
  simp [lookupFuel, hasKeyPath_of_none _ _ _ h, populateSamples_ok _ _ _ _ _ hd]

theorem lookupFuel_fallback (n : Nat) (fs : DataSource) (s : State) (l c : GoStr)
    (fb : Bool) (e : GoStr) (h : s.samplesCache.pool l c = none)
    (he : (fs s.useExternalData (fullpath l c)).failure l = some e)
    (hf : fallsBack s l fb e) :
    lookupFuel (n + 1) fs s l c fb = lookupFuel n fs (s.logRead l c) (lit "en") c false := by
  obtain ⟨h1, h2, h3, h4⟩ := hf
  simp [lookupFuel, hasKeyPath_of_none _ _ _ h, populateSamples_fail _ _ _ _ _ he,
    State.logRead, h1, h2, h3, h4]

theorem lookupFuel_fail (n : Nat) (fs : DataSource) (s : State) (l c : GoStr)
    (fb : Bool) (e : GoStr) (h : s.samplesCache.pool l c = none)
    (he : (fs s.useExternalData (fullpath l c)).failure l = some e)
    (hf : ¬ fallsBack s l fb e) :
    lookupFuel (n + 1) fs s l c fb = Except.ok ([], s.logRead l c) := by
  unfold fallsBack at hf
  simp only [lookupFuel, hasKeyPath_of_none _ _ _ h, populateSamples_fail _ _ _ _ _ he]
  simp only [State.logRead] at *
  rw [if_neg (by simp), if_neg hf]


theorem isSpace_newline : isSpace newline = true := by decide

theorem TrimSpace_eq (s : GoStr) :
    TrimSpace s = (s.dropWhile isSpace).rdropWhile isSpace := rfl

theorem TrimSpace_getLast_not_space (s : GoStr) (c : GoChar)
    (h : (TrimSpace s).getLast? = some c) : isSpace c = false := by
  have hne : TrimSpace s ≠ [] := by
    intro h0; simp [h0] at h
  rw [List.getLast?_eq_getLast _ hne] at h
  have := List.rdropWhile_last_not (p := isSpace) (l := s.dropWhile isSpace)
    (by rw [← TrimSpace_eq]; exact hne)
  simp only [← TrimSpace_eq] at this
  have hc : (TrimSpace s).getLast hne = c := by simpa using h
  rw [hc] at this
  simpa using this

theorem TrimSpace_head_not_space (s : GoStr) (c : GoChar)
    (h : (TrimSpace s).head? = some c) : isSpace c = false := by
  have hpre : TrimSpace s <+: s.dropWhile isSpace := by
    rw [TrimSpace_eq]; exact List.rdropWhile_prefix _ _
  obtain ⟨t, ht⟩ := hpre
  have hd := List.head?_dropWhile_not isSpace s
  rw [← ht] at hd
  cases hT : TrimSpace s with
  | nil => simp [hT] at h
  | cons a as =>
    rw [hT] at h hd
    simp at h hd
    rw [← h]; simpa using hd

theorem Split_cons_ne (c : GoChar) (cs : GoStr) (sep : GoChar) (h : c ≠ sep) :
    ∃ p, Split (c :: cs) sep = (c :: p) :: (Split cs sep).tail := by
  rw [Split, if_neg h]
  cases hs : Split cs sep with
  | nil => exact absurd hs (by
      cases cs with
      | nil => simp [Split]
      | cons d ds => unfold Split; split; simp; split <;> simp)
  | cons p ps => exact ⟨p, rfl⟩

theorem Split_cons_eq (cs : GoStr) (sep : GoChar) :
    Split (sep :: cs) sep = [] :: Split cs sep := by
  rw [Split, if_pos rfl]

theorem Split_tail_nonempty (t : GoStr) :
    twoNewlines t = false → t.getLast? ≠ some newline →
      ∀ p ∈ (Split t newline).tail, p ≠ [] := by
  induction t with
  | nil => intro _ _ p hp; simp [Split] at hp
  | cons c cs ih =>
    intro h2 hl p hp
    have h2cs : twoNewlines cs = false := by
      cases cs with
      | nil => rfl
      | cons d ds => simp [twoNewlines] at h2; exact h2.2
    have hlcs : cs.getLast? ≠ some newline := by
      cases cs with
      | nil => simp
      | cons d ds => simpa [List.getLast?_cons_cons] using hl
    by_cases hc : c = newline
    · subst hc
      rw [Split_cons_eq] at hp
      simp only [List.tail_cons] at hp
      cases cs with
      | nil => simp at hl
      | cons d ds =>
        have hd : d ≠ newline := by
          intro hd; subst hd; simp [twoNewlines] at h2
        obtain ⟨q, hq⟩ := Split_cons_ne d ds newline hd
        rw [hq] at hp
        rcases List.mem_cons.mp hp with rfl | hp
        · simp
        · have := ih h2cs hlcs p
          rw [hq] at this
          exact this hp
    · obtain ⟨q, hq⟩ := Split_cons_ne c cs newline hc
      rw [hq] at hp
      exact ih h2cs hlcs p hp

theorem Split_nonempty (t : GoStr) (hne : t ≠ [])
    (hh : t.head? ≠ some newline) (hl : t.getLast? ≠ some newline)
    (h2 : twoNewlines t = false) : ∀ p ∈ Split t newline, p ≠ [] := by
  cases t with
  | nil => exact absurd rfl hne
  | cons c cs =>
    have hc : c ≠ newline := by intro h; simp [h] at hh
    intro p hp
    obtain ⟨q, hq⟩ := Split_cons_ne c cs newline hc
    have htail := Split_tail_nonempty (c :: cs) h2 hl p
    rw [hq] at hp htail
    rcases List.mem_cons.mp hp with rfl | hp
    · simp
    · exact htail hp

theorem poolOf_nonempty (d : GoStr) (hne : TrimSpace d ≠ [])
    (h2 : twoNewlines (TrimSpace d) = false) : ∀ p ∈ poolOf d, p ≠ [] := by
  apply Split_nonempty _ hne _ _ h2
  · intro h
    have := TrimSpace_head_not_space d newline h
    simp [isSpace_newline] at this
  · intro h
    have := TrimSpace_getLast_not_space d newline h
    simp [isSpace_newline] at this

/-! ## C1: a lookup with a readable resource -/

/-- C1 (amended): when the resource of (L, C) is readable with content D and the
cache holds for (L, C) either nothing or the pool built from D, `lookup` returns,
for every fallback value and every random draw, one of the lines of D trimmed as
a whole of its surrounding white space; the returned line is not empty provided
the trimmed D is not empty and has no two newlines in a row. -/
theorem lookup_returns_trimmed_line (fs : DataSource) (s : State) (L C : GoStr)
    (fallback : Bool) (D : GoStr)
    (hD : fs s.useExternalData (fullpath L C) = Resource.content D)
    (hc : s.samplesCache.pool L C = none ∨ s.samplesCache.pool L C = some (poolOf D)) :
    ∃ v s1, lookup fs s L C fallback = Except.ok (v, s1) ∧
      v ∈ Split (TrimSpace D) newline ∧
      (TrimSpace D ≠ [] → twoNewlines (TrimSpace D) = false → v ≠ []) := by
  have key : ∃ v s1, lookup fs s L C fallback = Except.ok (v, s1) ∧ v ∈ poolOf D := by
    rcases hc with hc | hc
    · obtain ⟨v, r1, hp, hv⟩ := pick_ok (s.stored L C (poolOf D)) (poolOf D) (poolOf_ne_nil D)
      exact ⟨v, _, by rw [lookup, lookupFuel_content 1 fs s L C fallback D hc hD, hp], hv⟩
    · obtain ⟨v, r1, hp, hv⟩ := pick_ok s (poolOf D) (poolOf_ne_nil D)
      exact ⟨v, _, by rw [lookup, lookupFuel_cached 1 fs s L C fallback _ hc, hp], hv⟩
  obtain ⟨v, s1, h1, h2⟩ := key
  exact ⟨v, s1, h1, h2, fun hne h2n => poolOf_nonempty D hne h2n v h2⟩

/-- C1, an instance: the file `/data/en/x` with the two lines `a` and `b`, read
by a fresh package. -/
theorem lookup_returns_trimmed_line_witness :
    oneFile (lit "/data/en/x") (lit "a\nb") freshState.useExternalData
        (fullpath (lit "en") (lit "x")) = Resource.content (lit "a\nb") ∧
    ∃ v s1, lookup (oneFile (lit "/data/en/x") (lit "a\nb")) freshState (lit "en") (lit "x")
        true = Except.ok (v, s1) ∧
      v ∈ Split (TrimSpace (lit "a\nb")) newline ∧
      (TrimSpace (lit "a\nb") ≠ [] → twoNewlines (TrimSpace (lit "a\nb")) = false → v ≠ []) :=
  ⟨by decide, lookup_returns_trimmed_line _ freshState (lit "en") (lit "x") true (lit "a\nb")
    (by decide) (Or.inl (by decide))⟩

/-- C1 fails as stated: a resource holding one space is not empty, yet the
lookup returns the empty string; and from the resource " x" the lookup returns
"x", which is not a line of that resource. -/
theorem lookup_returns_line_counterexample :
    lit " " ≠ [] ∧
    value (lookup (oneFile (lit "/data/en/x") (lit " ")) freshState (lit "en") (lit "x") true)
      = some [] ∧
    value (lookup (oneFile (lit "/data/en/x") (lit " x")) freshState (lit "en") (lit "x") true)
      = some (lit "x") ∧
    lit "x" ∉ Split (lit " x") newline := by
  decide

/-! ## C2: the template expander -/

theorem Itoa_digit : ∀ d, d < 10 → Itoa d = [GoChar.rune (Char.ofNat (48 + d))] := by
  decide

theorem digit_utf8Size : ∀ d, d < 10 → (Char.ofNat (48 + d)).utf8Size = 1 := by
  decide

theorem expand_spec (f : GoStr) : ∀ (res : GoStr) (r : Rand),
    ∃ out r1, expand f res r = Except.ok (res ++ out, r1) ∧ List.Forall₂ expandsTo f out := by
  induction f with
  | nil => intro res r; exact ⟨[], r, by simp [expand], List.Forall₂.nil⟩
  | cons c f ih =>
    intro res r
    by_cases hc : c.toRune = hash
    · obtain ⟨out, r1, h1, h2⟩ := ih (res ++ Itoa (r.next 0 % 10)) ⟨fun i => r.next (i + 1)⟩
      have hd : r.next 0 % 10 < 10 := Nat.mod_lt _ (by norm_num)
      refine ⟨GoChar.rune (Char.ofNat (48 + r.next 0 % 10)) :: out, r1, ?_, ?_⟩
      · simp only [expand, hc, ne_eq, not_true_eq_false, if_false, Rand.Intn]
        simp only [show (10 : Nat) ≠ 0 by norm_num, if_false]
        rw [h1, Itoa_digit _ hd]; simp
      · exact List.Forall₂.cons ⟨fun _ => ⟨_, hd, rfl⟩, fun h => absurd hc h⟩ h2
    · obtain ⟨out, r1, h1, h2⟩ := ih (res ++ [GoChar.rune c.toRune]) r
      refine ⟨GoChar.rune c.toRune :: out, r1, ?_, ?_⟩
      · simp only [expand, ne_eq, hc, not_false_eq_true, if_true]
        rw [h1]; simp
      · exact List.Forall₂.cons ⟨fun h => absurd h hc, fun _ => rfl⟩ h2

theorem byteLen_expandsTo (f out : GoStr) (h : List.Forall₂ expandsTo f out)
    (hv : validUTF8 f) : byteLen out = byteLen f := by
  induction h with
  | nil => rfl
  | @cons g o f out hgo _ ih =>
    have hv2 : validUTF8 f := fun b hb => hv b (List.mem_cons_of_mem _ hb)
    cases g with
    | bad b => exact absurd (hv _ (List.mem_cons_self _ _)) (by simp [GoChar.isRune])
    | rune c =>
      by_cases hc : c = hash
      · obtain ⟨d, hd, ho⟩ := hgo.1 hc
        subst ho; subst hc
        simp only [byteLen, ih hv2, digit_utf8Size d hd]
        rfl
      · have ho := hgo.2 hc
        subst ho
        simp [byteLen, ih hv2, GoChar.toRune]


theorem generate_of_lookup (fs : DataSource) (s : State) (lag cat : GoStr) (fb : Bool)
    (f : GoStr) (s1 : State)
    (h : lookup fs s s.lang (cat ++ lit "_format") fb = Except.ok (f, s1)) :
    ∃ out r1, generate fs s lag cat fb = Except.ok (out, { s1 with r := r1 }) ∧
      List.Forall₂ expandsTo f out := by
  obtain ⟨out, r1, h1, h2⟩ := expand_spec f [] s1.r
  refine ⟨out, r1, ?_, h2⟩
  simp only [generate, h, h1, List.nil_append]

/-- C2 (amended): for every format string f resolved by `generate` that is valid
UTF-8 and every sequence of random draws, the output of `generate` has the same
length as f (in bytes and in characters), holds a digit `'0'`-`'9'` at every
position where f holds the placeholder `'#'`, and holds the same character as f
at every other position. -/
theorem generate_expands_valid_format (fs : DataSource) (s : State) (lag cat : GoStr)
    (fallback : Bool) (f : GoStr) (s1 : State)
    (hf : lookup fs s s.lang (cat ++ lit "_format") fallback = Except.ok (f, s1))
    (hv : validUTF8 f) :
    ∃ out r1, generate fs s lag cat fallback = Except.ok (out, { s1 with r := r1 }) ∧
      byteLen out = byteLen f ∧ out.length = f.length ∧
      ∀ i (h1 : i < f.length) (h2 : i < out.length),
        (f.get ⟨i, h1⟩ = GoChar.rune hash → isDigit (out.get ⟨i, h2⟩)) ∧
        (f.get ⟨i, h1⟩ ≠ GoChar.rune hash → out.get ⟨i, h2⟩ = f.get ⟨i, h1⟩) := by
  obtain ⟨out, r1, hg, hrel⟩ := generate_of_lookup fs s lag cat fallback f s1 hf
  refine ⟨out, r1, hg, byteLen_expandsTo f out hrel hv, hrel.length_eq.symm, ?_⟩
  intro i h1 h2
  have hi := (List.forall₂_iff_get.mp hrel).2 i h1 h2
  have hmem : f.get ⟨i, h1⟩ ∈ f := List.get_mem _ _ _
  cases hg : f.get ⟨i, h1⟩ with
  | bad b => rw [hg] at hmem; exact absurd (hv _ hmem) (by simp [GoChar.isRune])
  | rune c =>
    rw [hg] at hi
    constructor
    · intro hc
      exact hi.1 (by simpa [GoChar.toRune] using hc)
    · intro hc
      exact hi.2 (by simpa [GoChar.toRune] using hc)

/-- C2, an instance: the format `a#b` stored at `/data/en/x_format`. -/
theorem generate_expands_valid_format_witness :
    (lookup (oneFile (lit "/data/en/x_format") (lit "a#b")) freshState freshState.lang
        (lit "x" ++ lit "_format") true =
      Except.ok (lit "a#b", (freshState.stored (lit "en") (lit "x_format") [lit "a#b"])) ∧
      validUTF8 (lit "a#b")) ∧
    ∃ out r1, generate (oneFile (lit "/data/en/x_format") (lit "a#b")) freshState (lit "fr")
        (lit "x") true =
        Except.ok (out, { freshState.stored (lit "en") (lit "x_format") [lit "a#b"] with r := r1 }) ∧
      byteLen out = byteLen (lit "a#b") ∧ out.length = (lit "a#b").length ∧
      ∀ i (h1 : i < (lit "a#b").length) (h2 : i < out.length),
        ((lit "a#b").get ⟨i, h1⟩ = GoChar.rune hash → isDigit (out.get ⟨i, h2⟩)) ∧
        ((lit "a#b").get ⟨i, h1⟩ ≠ GoChar.rune hash → out.get ⟨i, h2⟩ = (lit "a#b").get ⟨i, h1⟩) :=
  have hl : lookup (oneFile (lit "/data/en/x_format") (lit "a#b")) freshState freshState.lang
        (lit "x" ++ lit "_format") true =
      Except.ok (lit "a#b", (freshState.stored (lit "en") (lit "x_format") [lit "a#b"])) := by
    rfl
  have hv : validUTF8 (lit "a#b") := by
    unfold validUTF8; decide
  ⟨⟨hl, hv⟩, generate_expands_valid_format _ freshState (lit "fr") (lit "x") true _ _ hl hv⟩

/-- C2 fails as stated: the one-byte format `\xff` is not valid UTF-8; the range
loop decodes it to U+FFFD, and the output is the three-byte encoding of U+FFFD,
neither of the same length as the format nor the same character. -/
theorem generate_invalid_byte_counterexample :
    value (lookup (oneFile (lit "/data/en/x_format") [GoChar.bad 255]) freshState
      freshState.lang (lit "x" ++ lit "_format") true) = some [GoChar.bad 255] ∧
    value (generate (oneFile (lit "/data/en/x_format") [GoChar.bad 255]) freshState
      (lit "en") (lit "x") true) = some [GoChar.rune (Char.ofNat 0xFFFD)] ∧
    byteLen [GoChar.bad 255] = 1 ∧
    byteLen [GoChar.rune (Char.ofNat 0xFFFD)] = 3 := by
  decide

/-! ## C3: `SetLang` -/

theorem SetLang.found_iff (x : GoStr) (ls : List GoStr) :
    SetLang.found x ls = true ↔ x ∈ ls := by
  induction ls with
  | nil => simp [SetLang.found]
  | cons l ls ih =>
    by_cases h : x = l
    · simp [SetLang.found, h]
    · simp [SetLang.found, h, ih]

/-- C3: for every string x, `SetLang(x)` returns an error exactly when x is not an
element of the available-language list (compared by plain string equality);
when it returns an error the state, and so the current language, is unchanged,
and when it returns nil the current language is x. -/
theorem SetLang_error_iff_not_available (s : State) (x : GoStr) :
    ((SetLang s x).1 ≠ none ↔ x ∉ s.availLangs) ∧
    ((SetLang s x).1 ≠ none →
      (SetLang s x).1 = some (ErrNoLanguageFn x) ∧ (SetLang s x).2 = s) ∧
    ((SetLang s x).1 = none → (SetLang s x).2.lang = x) := by
  by_cases h : x ∈ s.availLangs
  · have hf : SetLang.found x s.availLangs = true := (SetLang.found_iff x _).mpr h
    simp [SetLang, hf, h]
  · have hf : SetLang.found x s.availLangs = false := by
      cases hb : SetLang.found x s.availLangs with
      | false => rfl
      | true => exact absurd ((SetLang.found_iff x _).mp hb) h
    simp [SetLang, hf, h]

/-! ## How the operations change the state -/

theorem Grows.refl (s : State) : Grows s s := fun _ _ => Or.inl rfl

theorem Grows.trans {s s1 s2 : State} (h1 : Grows s s1) (h2 : Grows s1 s2) : Grows s s2 := by
  intro l c
  rcases h2 l c with e2 | ⟨n2, d2, e2⟩
  · rcases h1 l c with e1 | ⟨n1, d1, e1⟩
    · exact Or.inl (e2.trans e1)
    · exact Or.inr ⟨n1, d1, e2.trans e1⟩
  · rcases h1 l c with e1 | ⟨n1, d1, e1⟩
    · exact Or.inr ⟨e1 ▸ n2, d2, e2⟩
    · rw [n2] at e1; cases e1

theorem Grows.keeps {s s1 : State} (h : Grows s s1) (l c : GoStr) (p : List GoStr)
    (hp : s.samplesCache.pool l c = some p) : s1.samplesCache.pool l c = some p := by
  rcases h l c with e | ⟨n, _⟩
  · rw [e, hp]
  · rw [hp] at n; cases n

theorem Grows.keepsNonEmpty {s s1 : State} (h : Grows s s1) (hs : PoolsNonEmpty s) :
    PoolsNonEmpty s1 := by
  intro l c p hp
  rcases h l c with e | ⟨_, d, e⟩
  · exact hs l c p (e ▸ hp)
  · rw [hp] at e
    cases e
    exact poolOf_ne_nil d

theorem pick_state (s : State) (p : List GoStr) (v : GoStr) (s1 : State)
    (h : pick s p = Except.ok (v, s1)) :
    v ∈ p ∧ ∃ r1, s1 = { s with r := r1 } := by
  unfold pick at h
  cases hi : s.r.Intn p.length with
  | none => simp [hi] at h
  | some ir =>
    obtain ⟨i, r1⟩ := ir
    simp only [hi] at h
    cases hg : p[i]? with
    | none => simp [hg] at h
    | some x =>
      simp only [List.get?_eq_getElem?, hg, Except.ok.injEq, Prod.mk.injEq] at h
      exact ⟨h.1 ▸ List.getElem?_mem hg, r1, h.2.symm⟩

theorem Grows.of_logRead (s : State) (l c : GoStr) : Grows s (s.logRead l c) :=
  fun _ _ => Or.inl rfl

theorem Grows.of_stored (s : State) (l c d : GoStr) (h : s.samplesCache.pool l c = none) :
    Grows s (s.stored l c (poolOf d)) := by
  intro l1 c1
  have key : (s.stored l c (poolOf d)).samplesCache.pool l1 c1 =
      if l1 = l ∧ c1 = c then some (poolOf d) else s.samplesCache.pool l1 c1 :=
    pool_populated _ _ _ _ _ _
  rw [key]
  by_cases hk : l1 = l ∧ c1 = c
  · obtain ⟨rfl, rfl⟩ := hk
    exact Or.inr ⟨h, d, by simp⟩
  · exact Or.inl (by simp [hk])

/-- The package variables an operation of the resolver leaves alone. -/
theorem lookupFuel_state (n : Nat) : ∀ (fs : DataSource) (s : State) (l c : GoStr) (fb : Bool)
    (v : GoStr) (s1 : State), lookupFuel n fs s l c fb = Except.ok (v, s1) →
    Grows s s1 ∧ s1.availLangs = s.availLangs ∧ s1.lang = s.lang ∧
      s1.enFallback = s.enFallback ∧ s1.useExternalData = s.useExternalData := by
  induction n with
  | zero => intro fs s l c fb v s1 h; simp [lookupFuel] at h
  | succ n ih =>
    intro fs s l c fb v s1 h
    cases hp : s.samplesCache.pool l c with
    | some p =>
      rw [lookupFuel_cached n fs s l c fb p hp] at h
      obtain ⟨_, r1, rfl⟩ := pick_state _ _ _ _ h
      exact ⟨Grows.refl s, rfl, rfl, rfl, rfl⟩
    | none =>
      cases hr : fs s.useExternalData (fullpath l c) with
      | content d =>
        rw [lookupFuel_content n fs s l c fb d hp hr] at h
        obtain ⟨_, r1, rfl⟩ := pick_state _ _ _ _ h
        exact ⟨Grows.of_stored s l c d hp, rfl, rfl, rfl, rfl⟩
      | absent =>
        have he : (fs s.useExternalData (fullpath l c)).failure l = some (ErrNoSamplesFn l) := by
          rw [hr]; rfl
        by_cases hf : fallsBack s l fb (ErrNoSamplesFn l)
        · rw [lookupFuel_fallback n fs s l c fb _ hp he hf] at h
          obtain ⟨g, a, b, c1, d1⟩ := ih fs _ _ _ _ _ _ h
          exact ⟨(Grows.of_logRead s l c).trans g, a, b, c1, d1⟩
        · rw [lookupFuel_fail n fs s l c fb _ hp he hf] at h
          simp only [Except.ok.injEq, Prod.mk.injEq] at h
          obtain ⟨_, rfl⟩ := h
          exact ⟨Grows.of_logRead s l c, rfl, rfl, rfl, rfl⟩
      | unreadable m =>
        have he : (fs s.useExternalData (fullpath l c)).failure l = some m := by
          rw [hr]; rfl
        by_cases hf : fallsBack s l fb m
        · rw [lookupFuel_fallback n fs s l c fb _ hp he hf] at h
          obtain ⟨g, a, b, c1, d1⟩ := ih fs _ _ _ _ _ _ h
          exact ⟨(Grows.of_logRead s l c).trans g, a, b, c1, d1⟩
        · rw [lookupFuel_fail n fs s l c fb _ hp he hf] at h
          simp only [Except.ok.injEq, Prod.mk.injEq] at h
          obtain ⟨_, rfl⟩ := h
          exact ⟨Grows.of_logRead s l c, rfl, rfl, rfl, rfl⟩

theorem generate_state (fs : DataSource) (s : State) (lag cat : GoStr) (fb : Bool)
    (v : GoStr) (s1 : State) (h : generate fs s lag cat fb = Except.ok (v, s1)) :
    Grows s s1 ∧ s1.availLangs = s.availLangs := by
  unfold generate at h
  cases hl : lookup fs s s.lang (cat ++ lit "_format") fb with
  | error f => simp [hl] at h
  | ok fs1 =>
    obtain ⟨f, s2⟩ := fs1
    simp only [hl] at h
    obtain ⟨g, a, _⟩ := lookupFuel_state 2 fs s _ _ _ _ _ hl
    cases he : expand f [] s2.r with
    | error f => simp [he] at h
    | ok or1 =>
      obtain ⟨o, r1⟩ := or1
      simp only [he, Except.ok.injEq, Prod.mk.injEq] at h
      obtain ⟨_, rfl⟩ := h
      exact ⟨g, a⟩

theorem Step.grows {s s1 : State} (h : Step s s1) :
    Grows s s1 ∧ s1.availLangs = s.availLangs := by
  cases h with
  | lookup fs _ l c fb v _ h =>
    obtain ⟨g, a, _⟩ := lookupFuel_state 2 fs s l c fb v s1 h
    exact ⟨g, a⟩
  | generate fs _ lag cat fb v _ h => exact generate_state fs s lag cat fb v s1 h
  | setLang _ x =>
    unfold SetLang
    split <;> exact ⟨Grows.refl s, rfl⟩
  | useExternalData _ b => exact ⟨Grows.refl s, rfl⟩
  | enFallback _ b => exact ⟨Grows.refl s, rfl⟩

theorem Steps.grows_all {s s1 : State} (h : Steps s s1) :
    Grows s s1 ∧ s1.availLangs = s.availLangs := by
  induction h with
  | refl => exact ⟨Grows.refl s, rfl⟩
  | tail s1 s2 _ hstep ih =>
    obtain ⟨g, a⟩ := hstep.grows
    exact ⟨ih.1.trans g, a.trans ih.2⟩

theorem PoolsNonEmpty.of_init (data : List (GoStr × Bool)) (seed : Rand) :
    PoolsNonEmpty (State.init data seed) := by
  intro l c p h
  simp [State.init, samplesTree.pool, samplesTree.empty] at h

theorem Reachable.pools_ne_nil {s : State} (h : Reachable s) : PoolsNonEmpty s := by
  obtain ⟨data, seed, hs⟩ := h
  exact hs.grows_all.1.keepsNonEmpty (PoolsNonEmpty.of_init data seed)

theorem lookupFuel_en_returns (fs : DataSource) (s : State) (c : GoStr) (fb : Bool)
    (hs : PoolsNonEmpty s) (n : Nat) :
    ∃ v s1, lookupFuel (n + 1) fs s (lit "en") c fb = Except.ok (v, s1) := by
  cases hp : s.samplesCache.pool (lit "en") c with
  | some p =>
    obtain ⟨v, r1, h, _⟩ := pick_ok s p (hs _ _ _ hp)
    exact ⟨v, _, by rw [lookupFuel_cached n fs s _ c fb p hp, h]⟩
  | none =>
    cases hr : fs s.useExternalData (fullpath (lit "en") c) with
    | content d =>
      obtain ⟨v, r1, h, _⟩ := pick_ok (s.stored (lit "en") c (poolOf d)) _ (poolOf_ne_nil d)
      exact ⟨v, _, by rw [lookupFuel_content n fs s _ c fb d hp hr, h]⟩
    | absent =>
      exact ⟨_, _, lookupFuel_fail n fs s _ c fb (ErrNoSamplesFn (lit "en")) hp
        (by rw [hr]; rfl) (fun h => h.1 rfl)⟩
    | unreadable m =>
      exact ⟨_, _, lookupFuel_fail n fs s _ c fb m hp (by rw [hr]; rfl) (fun h => h.1 rfl)⟩

theorem lookup_returns (fs : DataSource) (s : State) (l c : GoStr) (fb : Bool)
    (hs : PoolsNonEmpty s) : ∃ v s1, lookup fs s l c fb = Except.ok (v, s1) := by
  unfold lookup
  cases hp : s.samplesCache.pool l c with
  | some p =>
    obtain ⟨v, r1, h, _⟩ := pick_ok s p (hs _ _ _ hp)
    exact ⟨v, _, by rw [lookupFuel_cached 1 fs s l c fb p hp, h]⟩
  | none =>
    cases hr : fs s.useExternalData (fullpath l c) with
    | content d =>
      obtain ⟨v, r1, h, _⟩ := pick_ok (s.stored l c (poolOf d)) _ (poolOf_ne_nil d)
      exact ⟨v, _, by rw [lookupFuel_content 1 fs s l c fb d hp hr, h]⟩
    | absent =>
      by_cases hf : fallsBack s l fb (ErrNoSamplesFn l)
      · rw [lookupFuel_fallback 1 fs s l c fb _ hp (by rw [hr]; rfl) hf]
        exact lookupFuel_en_returns fs _ c false (Grows.keepsNonEmpty (Grows.of_logRead s l c) hs) 0
      · exact ⟨_, _, lookupFuel_fail 1 fs s l c fb _ hp (by rw [hr]; rfl) hf⟩
    | unreadable m =>
      by_cases hf : fallsBack s l fb m
      · rw [lookupFuel_fallback 1 fs s l c fb _ hp (by rw [hr]; rfl) hf]
        exact lookupFuel_en_returns fs _ c false (Grows.keepsNonEmpty (Grows.of_logRead s l c) hs) 0
      · exact ⟨_, _, lookupFuel_fail 1 fs s l c fb _ hp (by rw [hr]; rfl) hf⟩

/-! ## C4: fallback to the English pool -/

theorem frCached_eq :
    lookup twoModes freshState (lit "fr") (lit "x") true = Except.ok (lit "bonjour", frCached) :=
  rfl

theorem staleState_reachable : Reachable staleState :=
  ⟨sampleData, constRand 0,
    Steps.tail _ _ _
      (Steps.tail _ _ _ (Steps.refl _)
        (Step.lookup twoModes freshState (lit "fr") (lit "x") true _ _ frCached_eq))
      (Step.useExternalData frCached true)⟩

theorem freshState_reachable : Reachable freshState :=
  ⟨sampleData, constRand 0, Steps.refl _⟩

/-- C4 (amended): for every language L different from "en" and every category C
such that no resource exists for (L, C) but one with content D exists for
("en", C), with the process-wide fallback flag enabled, in every reachable state
in which (L, C) is not cached, `lookup(L, C, true)` returns an element of the
"en" sample pool for C (the cached pool, or the pool built from D when
("en", C) is not cached); the returned string is not empty provided ("en", C)
is not cached and D, trimmed, is not empty and has no two newlines in a row. -/
theorem fallback_returns_en_sample (fs : DataSource) (s : State) (L C D : GoStr)
    (hr : Reachable s) (hL : L ≠ lit "en")
    (hno : fs s.useExternalData (fullpath L C) = Resource.absent)
    (hen : fs s.useExternalData (fullpath (lit "en") C) = Resource.content D)
    (hflag : s.enFallback = true)
    (hc : s.samplesCache.pool L C = none) :
    ∃ v s1, lookup fs s L C true = Except.ok (v, s1) ∧ v ∈ enPool s C D ∧
      s1.samplesCache.pool (lit "en") C = some (enPool s C D) ∧
      (s.samplesCache.pool (lit "en") C = none → TrimSpace D ≠ [] →
        twoNewlines (TrimSpace D) = false → v ≠ []) := by
  have hfb : fallsBack s L true (ErrNoSamplesFn L) := ⟨hL, rfl, hflag, rfl⟩
  have hstep : lookup fs s L C true =
      lookupFuel 1 fs (s.logRead L C) (lit "en") C false :=
    lookupFuel_fallback 1 fs s L C true _ hc (by rw [hno]; rfl) hfb
  cases hp : s.samplesCache.pool (lit "en") C with
  | some p =>
    have hp1 : (s.logRead L C).samplesCache.pool (lit "en") C = some p := hp
    obtain ⟨v, r1, h, hv⟩ := pick_ok (s.logRead L C) p (hr.pools_ne_nil _ _ _ hp)
    refine ⟨v, _, by rw [hstep, lookupFuel_cached 0 fs _ _ C false p hp1, h], ?_, ?_, ?_⟩
    · simpa [enPool, hp] using hv
    · simpa [enPool, hp] using hp1
    · intro hnone; cases hnone
  | none =>
    have hp1 : (s.logRead L C).samplesCache.pool (lit "en") C = none := hp
    have hen1 : fs (s.logRead L C).useExternalData (fullpath (lit "en") C) =
        Resource.content D := hen
    obtain ⟨v, r1, h, hv⟩ :=
      pick_ok ((s.logRead L C).stored (lit "en") C (poolOf D)) (poolOf D) (poolOf_ne_nil D)
    refine ⟨v, _, by rw [hstep, lookupFuel_content 0 fs _ _ C false D hp1 hen1, h], ?_, ?_, ?_⟩
    · simpa [enPool, hp] using hv
    · have key : ((s.logRead L C).stored (lit "en") C (poolOf D)).samplesCache.pool
          (lit "en") C = _ := pool_populated _ _ _ _ _ _
      simpa [enPool, hp] using key
    · intro _ hne h2
      exact poolOf_nonempty D hne h2 v hv

/-- C4, an instance: a fresh package whose only file is `/data/en/x`, asked for
("fr", "x"). -/
theorem fallback_returns_en_sample_witness :
    (Reachable freshState ∧ lit "fr" ≠ lit "en" ∧
      oneFile (lit "/data/en/x") (lit "hello") freshState.useExternalData
        (fullpath (lit "fr") (lit "x")) = Resource.absent ∧
      oneFile (lit "/data/en/x") (lit "hello") freshState.useExternalData
        (fullpath (lit "en") (lit "x")) = Resource.content (lit "hello") ∧
      freshState.enFallback = true ∧
      freshState.samplesCache.pool (lit "fr") (lit "x") = none) ∧
    ∃ v s1, lookup (oneFile (lit "/data/en/x") (lit "hello")) freshState (lit "fr") (lit "x")
        true = Except.ok (v, s1) ∧ v ∈ enPool freshState (lit "x") (lit "hello") ∧
      s1.samplesCache.pool (lit "en") (lit "x") =
        some (enPool freshState (lit "x") (lit "hello")) ∧
      (freshState.samplesCache.pool (lit "en") (lit "x") = none →
        TrimSpace (lit "hello") ≠ [] →
        twoNewlines (TrimSpace (lit "hello")) = false → v ≠ []) :=
  ⟨⟨freshState_reachable, by decide, by decide, by decide, by decide, by decide⟩,
    fallback_returns_en_sample _ freshState (lit "fr") (lit "x") (lit "hello")
      freshState_reachable (by decide) (by decide) (by decide) (by decide) (by decide)⟩

/-- C4 fails as stated, twice.  With the "en" resource holding one space, the
lookup of ("fr", "x") answers from English with the empty string.  And in the
reachable state `staleState`, where ("fr", "x") was cached before the data
source was switched, no resource exists for ("fr", "x"), one exists for
("en", "x"), the flag is enabled, and the lookup returns the cached French
sample, which is not in the English pool. -/
theorem fallback_returns_en_sample_counterexample :
    (oneFile (lit "/data/en/x") (lit " ") freshState.useExternalData
        (fullpath (lit "fr") (lit "x")) = Resource.absent ∧
      oneFile (lit "/data/en/x") (lit " ") freshState.useExternalData
        (fullpath (lit "en") (lit "x")) = Resource.content (lit " ") ∧
      freshState.enFallback = true ∧
      value (lookup (oneFile (lit "/data/en/x") (lit " ")) freshState (lit "fr") (lit "x") true)
        = some []) ∧
    (Reachable staleState ∧
      twoModes staleState.useExternalData (fullpath (lit "fr") (lit "x")) = Resource.absent ∧
      twoModes staleState.useExternalData (fullpath (lit "en") (lit "x")) =
        Resource.content (lit "hello") ∧
      staleState.enFallback = true ∧
      value (lookup twoModes staleState (lit "fr") (lit "x") true) = some (lit "bonjour") ∧
      lit "bonjour" ∉ poolOf (lit "hello")) :=
  ⟨by decide, staleState_reachable, by decide, by decide, by decide, by decide, by decide⟩

/-! ## C5: fallback disabled -/

/-- C5 (amended): for every language L different from "en" and every category C
such that no resource exists for (L, C), if the process-wide fallback flag is
false (as after `EnFallback(false)`) or the `fallback` argument is false, then in
every state in which (L, C) is not cached `lookup(L, C, fallback)` returns the
empty string; the only Resource Reader call it makes is the one for (L, C), so
the "en" resource is never read, and the cache is left as it was. -/
theorem no_fallback_returns_empty (fs : DataSource) (s : State) (L C : GoStr)
    (fallback : Bool) (hL : L ≠ lit "en")
    (hno : fs s.useExternalData (fullpath L C) = Resource.absent)
    (hoff : s.enFallback = false ∨ fallback = false)
    (hc : s.samplesCache.pool L C = none) :
    ∃ s1, lookup fs s L C fallback = Except.ok ([], s1) ∧
      s1.reads = (L, C) :: s.reads ∧ (lit "en", C) ≠ (L, C) ∧
      s1.samplesCache = s.samplesCache := by
  have hnf : ¬ fallsBack s L fallback (ErrNoSamplesFn L) := by
    rintro ⟨_, h2, h3, _⟩
    rcases hoff with h | h
    · rw [h] at h3; cases h3
    · rw [h] at h2; cases h2
  refine ⟨s.logRead L C, lookupFuel_fail 1 fs s L C fallback _ hc (by rw [hno]; rfl) hnf,
    rfl, ?_, rfl⟩
  intro h
  exact hL (congrArg Prod.fst h).symm

/-- C5, an instance: the flag switched off by `EnFallback(false)` on a fresh
package whose only file is `/data/en/x`, asked for ("fr", "x"). -/
theorem no_fallback_returns_empty_witness :
    (lit "fr" ≠ lit "en" ∧
      oneFile (lit "/data/en/x") (lit "hello") (EnFallback freshState false).useExternalData
        (fullpath (lit "fr") (lit "x")) = Resource.absent ∧
      ((EnFallback freshState false).enFallback = false ∨ true = false) ∧
      (EnFallback freshState false).samplesCache.pool (lit "fr") (lit "x") = none) ∧
    ∃ s1, lookup (oneFile (lit "/data/en/x") (lit "hello")) (EnFallback freshState false)
        (lit "fr") (lit "x") true = Except.ok ([], s1) ∧
      s1.reads = (lit "fr", lit "x") :: (EnFallback freshState false).reads ∧
      (lit "en", lit "x") ≠ (lit "fr", lit "x") ∧
      s1.samplesCache = (EnFallback freshState false).samplesCache :=
  ⟨⟨by decide, by decide, Or.inl rfl, by decide⟩,
    no_fallback_returns_empty _ (EnFallback freshState false) (lit "fr") (lit "x") true
      (by decide) (by decide) (Or.inl rfl) (by decide)⟩

/-- C5 fails as stated: in the reachable state `staleState` no resource exists
for ("fr", "x") and one exists for ("en", "x"), yet with the `fallback` argument
false, and also after `EnFallback(false)`, the lookup returns the sample cached
for ("fr", "x") and not the empty string. -/
theorem no_fallback_returns_empty_counterexample :
    Reachable staleState ∧
    twoModes staleState.useExternalData (fullpath (lit "fr") (lit "x")) = Resource.absent ∧
    twoModes staleState.useExternalData (fullpath (lit "en") (lit "x")) =
      Resource.content (lit "hello") ∧
    value (lookup twoModes staleState (lit "fr") (lit "x") false) = some (lit "bonjour") ∧
    value (lookup twoModes (EnFallback staleState false) (lit "fr") (lit "x") true) =
      some (lit "bonjour") ∧
    lit "bonjour" ≠ [] :=
  ⟨staleState_reachable, by decide, by decide, by decide, by decide, by decide⟩

/-! ## C6: population happens once -/

/-- C6: after a `lookup(L, C, _)` that reads the resource of (L, C) successfully
(the key path was not cached and the resource has content D), the cache has the
key path (L, C) holding the pool split from D; and after any further operations,
every later `lookup(L, C, _)`, on any data source and in any data-source mode,
makes no Resource Reader call, leaves the cache as it is, and returns an element
of that pool. -/
theorem population_is_idempotent (fs : DataSource) (s : State) (L C : GoStr)
    (fallback : Bool) (D : GoStr)
    (hc : s.samplesCache.pool L C = none)
    (hD : fs s.useExternalData (fullpath L C) = Resource.content D) :
    ∃ v s1, lookup fs s L C fallback = Except.ok (v, s1) ∧
      s1.reads = (L, C) :: s.reads ∧
      s1.samplesCache.hasKeyPath L C = true ∧
      s1.samplesCache.pool L C = some (poolOf D) ∧
      ∀ s2, Steps s1 s2 → ∀ (fs2 : DataSource) (fallback2 : Bool),
        s2.samplesCache.pool L C = some (poolOf D) ∧
        ∃ v2 s3, lookup fs2 s2 L C fallback2 = Except.ok (v2, s3) ∧
          v2 ∈ poolOf D ∧ s3.reads = s2.reads ∧ s3.samplesCache = s2.samplesCache := by
  obtain ⟨v, r1, h, _⟩ := pick_ok (s.stored L C (poolOf D)) (poolOf D) (poolOf_ne_nil D)
  have hpool : (s.stored L C (poolOf D)).samplesCache.pool L C = some (poolOf D) := by
    have key : (s.stored L C (poolOf D)).samplesCache.pool L C = _ :=
      pool_populated _ _ _ _ _ _
    simpa using key
  refine ⟨v, { s.stored L C (poolOf D) with r := r1 },
    by rw [lookup, lookupFuel_content 1 fs s L C fallback D hc hD, h], rfl,
    hasKeyPath_of_pool _ _ _ _ hpool, hpool, ?_⟩
  intro s2 hsteps fs2 fb2
  have hp2 : s2.samplesCache.pool L C = some (poolOf D) :=
    hsteps.grows_all.1.keeps L C _ hpool
  obtain ⟨v2, r2, h2, hv2⟩ := pick_ok s2 (poolOf D) (poolOf_ne_nil D)
  exact ⟨hp2, v2, { s2 with r := r2 },
    by rw [lookup, lookupFuel_cached 1 fs2 s2 L C fb2 _ hp2, h2], hv2, rfl, rfl⟩

/-- C6, an instance: ("fr", "x") is populated from the embedded files of
`twoModes`; the later lookups include the one in `staleState`, where the data
source in use has no such file. -/
theorem population_is_idempotent_witness :
    (freshState.samplesCache.pool (lit "fr") (lit "x") = none ∧
      twoModes freshState.useExternalData (fullpath (lit "fr") (lit "x")) =
        Resource.content (lit "bonjour")) ∧
    ∃ v s1, lookup twoModes freshState (lit "fr") (lit "x") true = Except.ok (v, s1) ∧
      s1.reads = (lit "fr", lit "x") :: freshState.reads ∧
      s1.samplesCache.hasKeyPath (lit "fr") (lit "x") = true ∧
      s1.samplesCache.pool (lit "fr") (lit "x") = some (poolOf (lit "bonjour")) ∧
      ∀ s2, Steps s1 s2 → ∀ (fs2 : DataSource) (fallback2 : Bool),
        s2.samplesCache.pool (lit "fr") (lit "x") = some (poolOf (lit "bonjour")) ∧
        ∃ v2 s3, lookup fs2 s2 (lit "fr") (lit "x") fallback2 = Except.ok (v2, s3) ∧
          v2 ∈ poolOf (lit "bonjour") ∧ s3.reads = s2.reads ∧
          s3.samplesCache = s2.samplesCache :=
  ⟨⟨by decide, by decide⟩,
    population_is_idempotent twoModes freshState (lit "fr") (lit "x") true (lit "bonjour")
      (by decide) (by decide)⟩

/-! ## C7: total failure -/

theorem expand_nil (r : Rand) : expand [] [] r = Except.ok ([], r) := rfl

/-- C7 (amended): for every language L and category C whose resource cannot be
opened, in every state in which (L, C) is not cached, if L is "en", or fallback
is not in force, or the resource of ("en", C) cannot be opened either and
("en", C) is not cached, `lookup(L, C, _)` returns the empty string and raises
no error; and `generate` returns the empty string whenever the resolution of
category + "_format" under the current language fails in this way. -/
theorem total_failure_returns_empty (fs : DataSource) (s : State) (L C : GoStr)
    (fallback : Bool)
    (hno : fs s.useExternalData (fullpath L C) = Resource.absent)
    (hc : s.samplesCache.pool L C = none)
    (h : L = lit "en" ∨ ¬ (fallback = true ∧ s.enFallback = true) ∨
      (fs s.useExternalData (fullpath (lit "en") C) = Resource.absent ∧
        s.samplesCache.pool (lit "en") C = none)) :
    (∃ s1, lookup fs s L C fallback = Except.ok ([], s1)) ∧
    (L = s.lang → ∀ lag cat, C = cat ++ lit "_format" →
      ∃ s1, generate fs s lag cat fallback = Except.ok ([], s1)) := by
  have hlook : ∃ s1, lookup fs s L C fallback = Except.ok ([], s1) := by
    by_cases hf : fallsBack s L fallback (ErrNoSamplesFn L)
    · rcases h with h | h | ⟨hen, hcen⟩
      · exact absurd h hf.1
      · exact absurd ⟨hf.2.1, hf.2.2.1⟩ h
      · refine ⟨(s.logRead L C).logRead (lit "en") C, ?_⟩
        rw [lookup, lookupFuel_fallback 1 fs s L C fallback _ hc (by rw [hno]; rfl) hf]
        exact lookupFuel_fail 0 fs (s.logRead L C) (lit "en") C false
          (ErrNoSamplesFn (lit "en")) hcen
          (by
            have : fs (s.logRead L C).useExternalData (fullpath (lit "en") C) =
              Resource.absent := hen
            rw [this]; rfl)
          (fun hfb => hfb.1 rfl)
    · exact ⟨_, lookupFuel_fail 1 fs s L C fallback _ hc (by rw [hno]; rfl) hf⟩
  refine ⟨hlook, ?_⟩
  intro hL lag cat hC
  obtain ⟨s1, hs1⟩ := hlook
  refine ⟨{ s1 with r := s1.r }, ?_⟩
  subst hL hC
  simp only [generate, hs1, expand_nil]

/-- C7, an instance: a fresh package without any file, whose current language
is "en", asked for ("en", "x_format"). -/
theorem total_failure_returns_empty_witness :
    (noFiles freshState.useExternalData (fullpath (lit "en") (lit "x_format")) =
        Resource.absent ∧
      freshState.samplesCache.pool (lit "en") (lit "x_format") = none ∧
      lit "en" = lit "en") ∧
    (∃ s1, lookup noFiles freshState (lit "en") (lit "x_format") true = Except.ok ([], s1)) ∧
    (lit "en" = freshState.lang → ∀ lag cat, lit "x_format" = cat ++ lit "_format" →
      ∃ s1, generate noFiles freshState lag cat true = Except.ok ([], s1)) :=
  ⟨⟨rfl, by decide, rfl⟩,
    total_failure_returns_empty noFiles freshState (lit "en") (lit "x_format") true rfl
      (by decide) (Or.inl rfl)⟩

theorem enCached_eq :
    lookup embeddedOnly freshState (lit "en") (lit "x") true =
      Except.ok (lit "hello", enCached) :=
  rfl

theorem enStale_reachable : Reachable enStale :=
  ⟨sampleData, constRand 0,
    Steps.tail _ _ _
      (Steps.tail _ _ _ (Steps.refl _)
        (Step.lookup embeddedOnly freshState (lit "en") (lit "x") true _ _ enCached_eq))
      (Step.useExternalData enCached true)⟩

/-- C7 fails as stated, twice.  In the reachable state `staleState` the resource
of ("fr", "x") cannot be opened and the `fallback` argument is false, yet the
lookup returns the sample cached for ("fr", "x").  And in the reachable state
`enStale` neither the resource of ("fr", "x") nor that of ("en", "x") can be
opened, yet the lookup of ("fr", "x") returns the sample cached for
("en", "x"). -/
theorem total_failure_returns_empty_counterexample :
    (Reachable staleState ∧
      twoModes staleState.useExternalData (fullpath (lit "fr") (lit "x")) = Resource.absent ∧
      value (lookup twoModes staleState (lit "fr") (lit "x") false) = some (lit "bonjour")) ∧
    (Reachable enStale ∧
      embeddedOnly enStale.useExternalData (fullpath (lit "fr") (lit "x")) = Resource.absent ∧
      embeddedOnly enStale.useExternalData (fullpath (lit "en") (lit "x")) = Resource.absent ∧
      value (lookup embeddedOnly enStale (lit "fr") (lit "x") true) = some (lit "hello")) ∧
    lit "bonjour" ≠ [] ∧ lit "hello" ≠ [] :=
  ⟨⟨staleState_reachable, by decide, by decide⟩,
    ⟨enStale_reachable, rfl, rfl, by decide⟩, by decide, by decide⟩

/-! ## C8: `GetLangs` -/

theorem GetLangs_foldl (data : List (GoStr × Bool)) (acc : List GoStr) :
    data.foldl
      (fun langs kv =>
        if kv.2 && kv.1 != lit "/" && kv.1 != lit "/data" then
          langs ++ [removeFirst kv.1 (lit "/data/")]
        else langs)
      acc = acc ++ data.filterMap langEntry := by
  induction data generalizing acc with
  | nil => simp
  | cons kv data ih =>
    rw [List.foldl_cons, ih]
    by_cases h : (kv.2 && kv.1 != lit "/" && kv.1 != lit "/data") = true
    · simp [List.filterMap_cons, langEntry, h]
    · simp [List.filterMap_cons, langEntry, h]

theorem GetLangs_eq_filterMap (data : List (GoStr × Bool)) :
    GetLangs data = data.filterMap langEntry := by
  unfold GetLangs
  rw [GetLangs_foldl]; rfl

theorem startsWith_append (p t : GoStr) : startsWith (p ++ t) p = true := by
  induction p with
  | nil => cases t <;> rfl
  | cons c p ih => simp [startsWith, ih]

theorem startsWith_iff (s p : GoStr) : startsWith s p = true ↔ ∃ t, s = p ++ t := by
  constructor
  · intro h
    induction p generalizing s with
    | nil => exact ⟨s, rfl⟩
    | cons d p ih =>
      cases s with
      | nil => simp [startsWith] at h
      | cons c s =>
        simp only [startsWith, Bool.and_eq_true, beq_iff_eq] at h
        obtain ⟨t, ht⟩ := ih s h.2
        exact ⟨t, by rw [h.1, ht]; rfl⟩
  · rintro ⟨t, rfl⟩
    exact startsWith_append p t

theorem removeFirst_append (p t : GoStr) (hp : p ≠ []) : removeFirst (p ++ t) p = t := by
  cases p with
  | nil => exact absurd rfl hp
  | cons c p =>
    have h := startsWith_append (c :: p) t
    rw [List.cons_append] at h ⊢
    rw [removeFirst, if_pos h]
    simp

theorem directlyUnder_ne (k name : GoStr) (h : directlyUnder k name) :
    k ≠ lit "/" ∧ k ≠ lit "/data" := by
  obtain ⟨rfl, _, _⟩ := h
  constructor <;> intro hk <;> have := congrArg List.length hk <;>
    simp [lit] at this

theorem topLevelName_eq_some (k : GoStr) (d : Bool) (name : GoStr) :
    topLevelName (k, d) = some name ↔ d = true ∧ directlyUnder k name := by
  unfold topLevelName directlyUnder
  constructor
  · intro h
    split at h
    · rename_i hc
      obtain ⟨h1, h2, h3, h4⟩ := hc
      simp only [Option.some.injEq] at h
      obtain ⟨t, ht⟩ := (startsWith_iff _ _).mp h2
      simp only at ht
      have hdrop : List.drop 6 k = t := by rw [ht]; rfl
      simp only at h h3 h4
      rw [hdrop] at h h3 h4
      subst h
      exact ⟨h1, ht, h3, h4⟩
    · cases h
  · rintro ⟨rfl, rfl, h3, h4⟩
    have hdrop : List.drop 6 (lit "/data/" ++ name) = name := rfl
    simp only [startsWith_append, hdrop]
    rw [if_pos ⟨trivial, trivial, h3, h4⟩]

theorem langEntry_eq_topLevelName (kv : GoStr × Bool)
    (h : kv.2 = true → kv.1 = lit "/" ∨ kv.1 = lit "/data" ∨ ∃ name, directlyUnder kv.1 name) :
    langEntry kv = topLevelName kv := by
  obtain ⟨k, d⟩ := kv
  cases d with
  | false => simp [langEntry, topLevelName]
  | true =>
    rcases h rfl with h | h | ⟨name, hn⟩
    · change k = lit "/" at h; subst h; decide
    · change k = lit "/data" at h; subst h; decide
    · have hne := directlyUnder_ne k name hn
      rw [(topLevelName_eq_some k true name).mpr ⟨rfl, hn⟩]
      obtain ⟨rfl, _, _⟩ := hn
      have hrem : removeFirst (lit "/data/" ++ name) (lit "/data/") = name :=
        removeFirst_append (lit "/data/") name (by decide)
      simp [langEntry, hne.1, hne.2, hrem]

/-- C8 (amended): `GetLangs` returns, in the order the table is visited, one
entry for every key of the table that is a directory other than "/" and "/data",
namely the key with its first "/data/" removed, and no entry for a file, for "/"
or for "/data".  For every table whose directories other than "/" and "/data"
all lie directly under /data, these entries are exactly the identifiers of the
directories located directly under /data, one per directory, with the "/data/"
in front removed. -/
theorem GetLangs_top_level_directories (data : List (GoStr × Bool))
    (h : ∀ kv ∈ data, kv.2 = true →
      kv.1 = lit "/" ∨ kv.1 = lit "/data" ∨ ∃ name, directlyUnder kv.1 name) :
    GetLangs data = data.filterMap langEntry ∧
    GetLangs data = data.filterMap topLevelName ∧
    ∀ x, x ∈ GetLangs data ↔ ∃ k, (k, true) ∈ data ∧ directlyUnder k x := by
  have h2 : GetLangs data = data.filterMap topLevelName := by
    rw [GetLangs_eq_filterMap]
    apply List.filterMap_congr
    intro kv hkv
    exact langEntry_eq_topLevelName kv (h kv hkv)
  refine ⟨GetLangs_eq_filterMap data, h2, ?_⟩
  intro x
  rw [h2, List.mem_filterMap]
  constructor
  · rintro ⟨⟨k, d⟩, hmem, hx⟩
    obtain ⟨rfl, hd⟩ := (topLevelName_eq_some k d x).mp hx
    exact ⟨k, hmem, hd⟩
  · rintro ⟨k, hmem, hd⟩
    exact ⟨(k, true), hmem, (topLevelName_eq_some k true x).mpr ⟨rfl, hd⟩⟩

/-- C8, an instance: the table `sampleData`, with the language directories
`/data/en` and `/data/fr`. -/
theorem GetLangs_top_level_directories_witness :
    (∀ kv ∈ sampleData, kv.2 = true →
      kv.1 = lit "/" ∨ kv.1 = lit "/data" ∨ ∃ name, directlyUnder kv.1 name) ∧
    GetLangs sampleData = [lit "en", lit "fr"] ∧
    (GetLangs sampleData = sampleData.filterMap langEntry ∧
      GetLangs sampleData = sampleData.filterMap topLevelName ∧
      ∀ x, x ∈ GetLangs sampleData ↔ ∃ k, (k, true) ∈ sampleData ∧ directlyUnder k x) :=
  have h : ∀ kv ∈ sampleData, kv.2 = true →
      kv.1 = lit "/" ∨ kv.1 = lit "/data" ∨ ∃ name, directlyUnder kv.1 name := by
    intro kv hkv hd
    simp only [sampleData, List.mem_cons, List.mem_singleton, List.not_mem_nil, or_false] at hkv
    rcases hkv with rfl | rfl | rfl | rfl | rfl
    · exact Or.inl rfl
    · exact Or.inr (Or.inl rfl)
    · exact Or.inr (Or.inr ⟨lit "en", rfl, by decide, by decide⟩)
    · exact Or.inr (Or.inr ⟨lit "fr", rfl, by decide, by decide⟩)
    · cases hd
  ⟨h, by decide, GetLangs_top_level_directories sampleData h⟩

/-- C8 fails as stated: on a table holding the directory `/data/en/sub`, nested
below the language directory `/data/en`, `GetLangs` returns an entry for the
nested directory as well. -/
theorem GetLangs_nested_directory_counterexample :
    (lit "/data/en/sub", true) ∈ nestedData ∧
    GetLangs nestedData = [lit "en", lit "en/sub"] ∧
    lit "en/sub" ∈ GetLangs nestedData := by
  decide

/-! ## C9: stability of `GetLangs` -/

theorem GetLangs_perm (data1 data2 : List (GoStr × Bool)) (h : data1.Perm data2) :
    (GetLangs data1).Perm (GetLangs data2) := by
  rw [GetLangs_eq_filterMap, GetLangs_eq_filterMap]
  exact h.filterMap _

/-- C9 (amended): any two calls of `GetLangs`, made before or after any sequence
of `SetLang`, `EnFallback`, `UseExternalData`, `lookup` and `generate`
operations, return the same identifiers with the same multiplicities, in an
order that may differ from call to call (the order in which the range statement
visits the table); and this holds as well between any call and the registry
`availLangs`, which is built once at start-up and never changed afterwards. -/
theorem GetLangs_stable_up_to_order (data data1 data2 : List (GoStr × Bool)) (seed : Rand)
    (s : State) (h1 : data1.Perm data) (h2 : data2.Perm data)
    (hs : Steps (State.init data seed) s) :
    (GetLangs data1).Perm (GetLangs data2) ∧ (GetLangs data1).Perm s.availLangs ∧
      s.availLangs = GetLangs data := by
  have ha : s.availLangs = GetLangs data := hs.grows_all.2
  refine ⟨GetLangs_perm _ _ (h1.trans h2.symm), ?_, ha⟩
  rw [ha]
  exact GetLangs_perm _ _ h1

/-- C9, an instance: the table `sampleData` visited in its own and in the
reverse order, after the operations that lead to `staleState`. -/
theorem GetLangs_stable_up_to_order_witness :
    (sampleData.Perm sampleData ∧ sampleData.reverse.Perm sampleData ∧
      Steps (State.init sampleData (constRand 0)) staleState) ∧
    (GetLangs sampleData).Perm (GetLangs sampleData.reverse) ∧
    (GetLangs sampleData).Perm staleState.availLangs ∧
    staleState.availLangs = GetLangs sampleData :=
  have hs : Steps (State.init sampleData (constRand 0)) staleState :=
    Steps.tail _ _ _
      (Steps.tail _ _ _ (Steps.refl _)
        (Step.lookup twoModes freshState (lit "fr") (lit "x") true _ _ frCached_eq))
      (Step.useExternalData frCached true)
  ⟨⟨List.Perm.refl _, List.reverse_perm _, hs⟩,
    GetLangs_stable_up_to_order sampleData sampleData sampleData.reverse (constRand 0)
      staleState (List.Perm.refl _) (List.reverse_perm _) hs⟩

/-- C9 fails as stated: the range statement may visit the same table in two
orders, and `GetLangs` then returns two different sequences. -/
theorem GetLangs_order_counterexample :
    sampleData.reverse.Perm sampleData ∧
    GetLangs sampleData = [lit "en", lit "fr"] ∧
    GetLangs sampleData.reverse = [lit "fr", lit "en"] ∧
    GetLangs sampleData.reverse ≠ GetLangs sampleData :=
  ⟨List.reverse_perm _, by decide, by decide, by decide⟩

/-! ## C10: no pool is empty -/

theorem emptyCached_eq :
    lookup (oneFile (lit "/data/en/x") []) freshState (lit "en") (lit "x") true =
      Except.ok ([], emptyCached) :=
  rfl

theorem emptyCached_reachable : Reachable emptyCached :=
  ⟨sampleData, constRand 0,
    Steps.tail _ _ _ (Steps.refl _)
      (Step.lookup _ freshState (lit "en") (lit "x") true _ _ emptyCached_eq)⟩

/-- C10: in every state reachable from the empty cache by any sequence of
`lookup`, `generate` and configuration operations, over any data sources (empty
and white-space-only resources included), every pool stored in the cache has at
least one element; consequently `lookup`, and `generate` with it, always returns:
the index `r.Intn(len(samples))` is within bounds and no panic is raised. -/
theorem pools_never_empty (s : State) (h : Reachable s) :
    (∀ l c p, s.samplesCache.pool l c = some p → 0 < p.length) ∧
    (∀ (fs : DataSource) l c fallback, ∃ v s1, lookup fs s l c fallback = Except.ok (v, s1)) ∧
    (∀ (fs : DataSource) lag cat fallback,
      ∃ v s1, generate fs s lag cat fallback = Except.ok (v, s1)) := by
  have hp := h.pools_ne_nil
  refine ⟨fun l c p hlc => List.length_pos.mpr (hp l c p hlc),
    fun fs l c fb => lookup_returns fs s l c fb hp, ?_⟩
  intro fs lag cat fb
  obtain ⟨f, s1, hl⟩ := lookup_returns fs s s.lang (cat ++ lit "_format") fb hp
  obtain ⟨out, r1, hg, _⟩ := generate_of_lookup fs s lag cat fb f s1 hl
  exact ⟨out, _, hg⟩

/-- C10, an instance: the state reached by a lookup that read an empty resource;
the pool it stored is the one-element pool holding the empty string. -/
theorem pools_never_empty_witness :
    Reachable emptyCached ∧
    emptyCached.samplesCache.pool (lit "en") (lit "x") = some [[]] ∧
    ((∀ l c p, emptyCached.samplesCache.pool l c = some p → 0 < p.length) ∧
    (∀ (fs : DataSource) l c fallback,
      ∃ v s1, lookup fs emptyCached l c fallback = Except.ok (v, s1)) ∧
    (∀ (fs : DataSource) lag cat fallback,
      ∃ v s1, generate fs emptyCached lag cat fallback = Except.ok (v, s1))) :=
  ⟨emptyCached_reachable, by decide, pools_never_empty emptyCached emptyCached_reachable⟩

/-! ## C11 and C12: the pool built by `populateSamples` -/

theorem Split_length (t : GoStr) :
    (Split t newline).length = t.count newline + 1 := by
  induction t with
  | nil => simp [Split]
  | cons c cs ih =>
    by_cases hc : c = newline
    · subst hc
      rw [Split_cons_eq, List.length_cons, ih, List.count_cons_self]
    · obtain ⟨p, hp⟩ := Split_cons_ne c cs newline hc
      have hlen : (Split cs newline).tail.length + 1 = (Split cs newline).length := by
        cases hs : Split cs newline with
        | nil => exact absurd hs (Split_ne_nil _ _)
        | cons q qs => simp
      rw [hp, List.length_cons, hlen, ih, List.count_cons_of_ne (Ne.symm hc)]

theorem Split_tail_mem_nil (t : GoStr) (h : twoNewlines t = true) :
    [] ∈ (Split t newline).tail := by
  induction t with
  | nil => simp [twoNewlines] at h
  | cons a cs ih =>
    cases cs with
    | nil => simp [twoNewlines] at h
    | cons b rest =>
      by_cases hab : a = newline ∧ b = newline
      · obtain ⟨rfl, rfl⟩ := hab
        rw [Split_cons_eq, Split_cons_eq]
        simp
      · have h2 : twoNewlines (b :: rest) = true := by
          simp only [twoNewlines, Bool.or_eq_true, Bool.and_eq_true, beq_iff_eq] at h
          rcases h with h | h
          · exact absurd h hab
          · exact h
        have := ih h2
        by_cases ha : a = newline
        · subst ha
          rw [Split_cons_eq]
          exact List.mem_of_mem_tail this
        · obtain ⟨p, hp⟩ := Split_cons_ne a (b :: rest) newline ha
          rw [hp]
          exact this

theorem poolOf_mem_nil_iff (d : GoStr) :
    [] ∈ poolOf d ↔ TrimSpace d = [] ∨ twoNewlines (TrimSpace d) = true := by
  constructor
  · intro h
    by_contra hcon
    push_neg at hcon
    have h2 : twoNewlines (TrimSpace d) = false := by
      cases hb : twoNewlines (TrimSpace d) with
      | false => rfl
      | true => exact absurd hb hcon.2
    exact poolOf_nonempty d hcon.1 h2 [] h rfl
  · rintro (h | h)
    · simp [poolOf, h, Split]
    · exact List.mem_of_mem_tail (Split_tail_mem_nil _ h)

theorem Join_cons_cons (c : GoChar) (p : GoStr) (ps : List GoStr) (sep : GoStr) :
    Join ((c :: p) :: ps) sep = c :: Join (p :: ps) sep := by
  cases ps <;> simp [Join]

theorem Join_Split (t : GoStr) : Join (Split t newline) [newline] = t := by
  induction t with
  | nil => simp [Split, Join]
  | cons c cs ih =>
    by_cases hc : c = newline
    · subst hc
      rw [Split_cons_eq]
      cases hs : Split cs newline with
      | nil => exact absurd hs (Split_ne_nil _ _)
      | cons q qs =>
        rw [hs] at ih
        simp [Join, ih]
    · rw [Split, if_neg hc]
      cases hs : Split cs newline with
      | nil => exact absurd hs (Split_ne_nil _ _)
      | cons q qs =>
        rw [hs] at ih
        simp only
        rw [Join_cons_cons, ih]

theorem Split_no_newline (t : GoStr) : ∀ p ∈ Split t newline, newline ∉ p := by
  induction t with
  | nil => intro p hp; simp [Split] at hp; simp [hp]
  | cons c cs ih =>
    intro p hp
    by_cases hc : c = newline
    · subst hc
      rw [Split_cons_eq] at hp
      rcases List.mem_cons.mp hp with rfl | hp
      · simp
      · exact ih p hp
    · rw [Split, if_neg hc] at hp
      cases hs : Split cs newline with
      | nil => exact absurd hs (Split_ne_nil _ _)
      | cons q qs =>
        rw [hs] at hp ih
        simp only at hp
        rcases List.mem_cons.mp hp with rfl | hp
        · intro hmem
          rcases List.mem_cons.mp hmem with h | h
          · exact hc h.symm
          · exact ih q (List.mem_cons_self _ _) h
        · exact ih p (List.mem_cons_of_mem _ hp)

theorem Split_of_not_mem (a : GoStr) (h : newline ∉ a) : Split a newline = [a] := by
  induction a with
  | nil => simp [Split]
  | cons c cs ih =>
    have hc : c ≠ newline := fun hc => h (hc ▸ List.mem_cons_self _ _)
    have hcs : newline ∉ cs := fun hm => h (List.mem_cons_of_mem _ hm)
    rw [Split, if_neg hc, ih hcs]

theorem Split_append_newline (a r : GoStr) (h : newline ∉ a) :
    Split (a ++ newline :: r) newline = a :: Split r newline := by
  induction a with
  | nil => simp [Split_cons_eq]
  | cons c cs ih =>
    have hc : c ≠ newline := fun hc => h (hc ▸ List.mem_cons_self _ _)
    have hcs : newline ∉ cs := fun hm => h (List.mem_cons_of_mem _ hm)
    rw [List.cons_append, Split, if_neg hc, ih hcs]

/-- The split is the only sequence of newline-free pieces that joins back to
the string. -/
theorem Split_Join (xs : List GoStr) (hne : xs ≠ []) (h : ∀ p ∈ xs, newline ∉ p) :
    Split (Join xs [newline]) newline = xs := by
  induction xs with
  | nil => exact absurd rfl hne
  | cons a rest ih =>
    cases rest with
    | nil => simpa [Join] using Split_of_not_mem a (h a (List.mem_cons_self _ _))
    | cons b rest =>
      have hrest := ih (by simp) (fun p hp => h p (List.mem_cons_of_mem _ hp))
      simp only [Join, List.append_assoc, List.singleton_append]
      rw [Split_append_newline a _ (h a (List.mem_cons_self _ _)), hrest]

theorem Split_head_starts (t p : GoStr) (h : (Split t newline).head? = some p) :
    ∃ rest, t = p ++ rest := by
  cases hs : Split t newline with
  | nil => exact absurd hs (Split_ne_nil _ _)
  | cons q qs =>
    rw [hs] at h
    simp only [List.head?_cons, Option.some.injEq] at h
    subst h
    have hj := Join_Split t
    rw [hs] at hj
    cases qs with
    | nil => exact ⟨[], by simpa [Join] using hj.symm⟩
    | cons b rest => exact ⟨[newline] ++ Join (b :: rest) [newline], by
        simpa [Join] using hj.symm⟩

theorem Join_append_singleton (xs : List GoStr) (q sep : GoStr) (hne : xs ≠ []) :
    Join (xs ++ [q]) sep = Join xs sep ++ sep ++ q := by
  induction xs with
  | nil => exact absurd rfl hne
  | cons a rest ih =>
    cases rest with
    | nil => simp [Join]
    | cons b rest =>
      have := ih (by simp)
      simp only [List.cons_append] at this ⊢
      simp only [Join, this, List.append_assoc]

theorem Split_getLast_ends (t q : GoStr) (h : (Split t newline).getLast? = some q) :
    ∃ front, t = front ++ q := by
  have hj := Join_Split t
  obtain ⟨xs, hxs⟩ : ∃ xs, Split t newline = xs ++ [q] := by
    have hne := Split_ne_nil t newline
    refine ⟨(Split t newline).dropLast, ?_⟩
    have hl := List.dropLast_append_getLast hne
    rw [List.getLast?_eq_getLast _ hne] at h
    simp only [Option.some.injEq] at h
    rw [h] at hl
    exact hl.symm
  rw [hxs] at hj
  by_cases hx : xs = []
  · subst hx
    exact ⟨[], by simpa [Join] using hj.symm⟩
  · rw [Join_append_singleton xs q _ hx] at hj
    exact ⟨Join xs [newline] ++ [newline], hj.symm⟩

/-- C11 (amended): for every readable resource content D, the pool produced by
`populateSamples` is the ordered sequence of the lines of D trimmed as a whole
of its surrounding white space, one element per line of the trimmed D (one more
than its number of newlines); the pool holds the empty string exactly when the
trimmed D is empty or has two newlines in a row, so no element of the pool is
the empty string if D, trimmed, is non-empty and has no empty line. -/
theorem populated_pool_elements (fs : DataSource) (s : State) (L C D : GoStr)
    (hD : fs s.useExternalData (fullpath L C) = Resource.content D) :
    ∃ pool s1, populateSamples fs s L C = (Except.ok pool, s1) ∧
      pool = Split (TrimSpace D) newline ∧
      pool.length = (TrimSpace D).count newline + 1 ∧
      ([] ∈ pool ↔ TrimSpace D = [] ∨ twoNewlines (TrimSpace D) = true) ∧
      (TrimSpace D ≠ [] → twoNewlines (TrimSpace D) = false → ∀ p ∈ pool, p ≠ []) :=
  ⟨poolOf D, s.stored L C (poolOf D), populateSamples_ok fs s L C D hD, rfl,
    Split_length _, poolOf_mem_nil_iff D, poolOf_nonempty D⟩

/-- C11, an instance: the resource `a`, newline, `b`, with a space in front and a
newline at the end. -/
theorem populated_pool_elements_witness :
    oneFile (lit "/data/en/x") (lit " a\nb\n") freshState.useExternalData
        (fullpath (lit "en") (lit "x")) = Resource.content (lit " a\nb\n") ∧
    Split (TrimSpace (lit " a\nb\n")) newline = [lit "a", lit "b"] ∧
    ∃ pool s1, populateSamples (oneFile (lit "/data/en/x") (lit " a\nb\n")) freshState
        (lit "en") (lit "x") = (Except.ok pool, s1) ∧
      pool = Split (TrimSpace (lit " a\nb\n")) newline ∧
      pool.length = (TrimSpace (lit " a\nb\n")).count newline + 1 ∧
      ([] ∈ pool ↔ TrimSpace (lit " a\nb\n") = [] ∨
        twoNewlines (TrimSpace (lit " a\nb\n")) = true) ∧
      (TrimSpace (lit " a\nb\n") ≠ [] → twoNewlines (TrimSpace (lit " a\nb\n")) = false →
        ∀ p ∈ pool, p ≠ []) :=
  ⟨by decide, by decide,
    populated_pool_elements _ freshState (lit "en") (lit "x") (lit " a\nb\n") (by decide)⟩

/-- C11 fails as stated: from the resource `a`, empty line, `b` the pool built
by `populateSamples` holds the empty string as its second element, and from a
resource holding one space the pool is the single empty string. -/
theorem populated_pool_empty_string_counterexample :
    (populateSamples (oneFile (lit "/data/en/x") (lit "a\n\nb")) freshState (lit "en")
      (lit "x")).1 = Except.ok [lit "a", [], lit "b"] ∧
    (populateSamples (oneFile (lit "/data/en/x") (lit " ")) freshState (lit "en")
      (lit "x")).1 = Except.ok [[]] :=
  ⟨rfl, rfl⟩

/-- C12: for every language L, category C and readable resource content D,
`populateSamples(L, C)` returns, and stores in the cache under (L, C), exactly
the sequence obtained by trimming the leading and trailing white space of D as
a whole and splitting the result at every newline: joining the pool with a
newline gives back the trimmed D, no element contains a newline (and the pool
is the only non-empty sequence with these two properties), the first element
has no leading white space and the last element has no trailing white space. -/
theorem populateSamples_stores_trimmed_lines (fs : DataSource) (s : State) (L C D : GoStr)
    (hD : fs s.useExternalData (fullpath L C) = Resource.content D) :
    ∃ pool s1, populateSamples fs s L C = (Except.ok pool, s1) ∧
      s1.samplesCache.pool L C = some pool ∧
      pool = Split (TrimSpace D) newline ∧
      Join pool [newline] = TrimSpace D ∧
      (∀ p ∈ pool, newline ∉ p) ∧
      (∀ xs : List GoStr, xs ≠ [] → Join xs [newline] = TrimSpace D →
        (∀ p ∈ xs, newline ∉ p) → xs = pool) ∧
      (∀ p c, pool.head? = some p → p.head? = some c → isSpace c = false) ∧
      (∀ p c, pool.getLast? = some p → p.getLast? = some c → isSpace c = false) := by
  refine ⟨poolOf D, s.stored L C (poolOf D), populateSamples_ok fs s L C D hD, ?_, rfl,
    Join_Split _, Split_no_newline _, ?_, ?_, ?_⟩
  · have key : (s.stored L C (poolOf D)).samplesCache.pool L C = _ :=
      pool_populated _ _ _ _ _ _
    simpa using key
  · intro xs hne hj hx
    have := Split_Join xs hne hx
    rw [hj] at this
    exact this.symm
  · intro p c hp hc
    obtain ⟨rest, hrest⟩ := Split_head_starts _ p hp
    apply TrimSpace_head_not_space D c
    cases p with
    | nil => simp at hc
    | cons a as =>
      simp only [List.head?_cons, Option.some.injEq] at hc
      rw [hrest, hc]; rfl
  · intro p c hp hc
    obtain ⟨front, hfront⟩ := Split_getLast_ends _ p hp
    apply TrimSpace_getLast_not_space D c
    have hpne : p ≠ [] := by
      intro h0; simp [h0] at hc
    rw [hfront, List.getLast?_append_of_ne_nil _ hpne]
    exact hc

/-- C12, an instance: the resource `a`, newline, `b`, with a space in front and a
newline at the end, stored under ("en", "x"). -/
theorem populateSamples_stores_trimmed_lines_witness :
    oneFile (lit "/data/en/x") (lit " a\nb\n") freshState.useExternalData
        (fullpath (lit "en") (lit "x")) = Resource.content (lit " a\nb\n") ∧
    TrimSpace (lit " a\nb\n") = lit "a\nb" ∧
    ∃ pool s1, populateSamples (oneFile (lit "/data/en/x") (lit " a\nb\n")) freshState
        (lit "en") (lit "x") = (Except.ok pool, s1) ∧
      s1.samplesCache.pool (lit "en") (lit "x") = some pool ∧
      pool = Split (TrimSpace (lit " a\nb\n")) newline ∧
      Join pool [newline] = TrimSpace (lit " a\nb\n") ∧
      (∀ p ∈ pool, newline ∉ p) ∧
      (∀ xs : List GoStr, xs ≠ [] → Join xs [newline] = TrimSpace (lit " a\nb\n") →
        (∀ p ∈ xs, newline ∉ p) → xs = pool) ∧
      (∀ p c, pool.head? = some p → p.head? = some c → isSpace c = false) ∧
      (∀ p c, pool.getLast? = some p → p.getLast? = some c → isSpace c = false) :=
  ⟨by decide, by decide,
    populateSamples_stores_trimmed_lines _ freshState (lit "en") (lit "x") (lit " a\nb\n")
      (by decide)⟩

/-! ## C13: termination of `lookup` -/

theorem lookupFuel_one_en (fs : DataSource) (s : State) (c : GoStr) (fb : Bool) (n : Nat) :
    lookupFuel (n + 1) fs s (lit "en") c fb = lookupFuel 1 fs s (lit "en") c fb ∧
    lookupFuel 1 fs s (lit "en") c fb ≠ Except.error Fault.outOfFuel := by
  cases hp : s.samplesCache.pool (lit "en") c with
  | some p =>
    rw [lookupFuel_cached n fs s _ c fb p hp, lookupFuel_cached 0 fs s _ c fb p hp]
    refine ⟨rfl, ?_⟩
    unfold pick
    split
    · simp
    · split <;> simp
  | none =>
    cases hr : fs s.useExternalData (fullpath (lit "en") c) with
    | content d =>
      rw [lookupFuel_content n fs s _ c fb d hp hr, lookupFuel_content 0 fs s _ c fb d hp hr]
      obtain ⟨v, r1, h, _⟩ := pick_ok (s.stored (lit "en") c (poolOf d)) _ (poolOf_ne_nil d)
      exact ⟨rfl, by rw [h]; simp⟩
    | absent =>
      have he : (fs s.useExternalData (fullpath (lit "en") c)).failure (lit "en") =
          some (ErrNoSamplesFn (lit "en")) := by rw [hr]; rfl
      rw [lookupFuel_fail n fs s _ c fb _ hp he (fun h => h.1 rfl),
        lookupFuel_fail 0 fs s _ c fb _ hp he (fun h => h.1 rfl)]
      exact ⟨rfl, by simp⟩
    | unreadable m =>
      have he : (fs s.useExternalData (fullpath (lit "en") c)).failure (lit "en") = some m := by
        rw [hr]; rfl
      rw [lookupFuel_fail n fs s _ c fb _ hp he (fun h => h.1 rfl),
        lookupFuel_fail 0 fs s _ c fb _ hp he (fun h => h.1 rfl)]
      exact ⟨rfl, by simp⟩

theorem pick_ne_outOfFuel (s : State) (p : List GoStr) :
    pick s p ≠ Except.error Fault.outOfFuel := by
  unfold pick
  split
  · simp
  · split <;> simp

/-- The shape of one level of `lookup`: it returns without a recursive call, or
it is the recursive call on "en" with fallback disabled, made after one read. -/
theorem lookupFuel_succ_cases (n : Nat) (fs : DataSource) (s : State) (l c : GoStr)
    (fb : Bool) :
    ((∀ m, lookupFuel (m + 1) fs s l c fb = lookupFuel 1 fs s l c fb) ∧
      lookupFuel 1 fs s l c fb ≠ Except.error Fault.outOfFuel ∧
      ∀ v s1, lookupFuel 1 fs s l c fb = Except.ok (v, s1) →
        s1.reads = s.reads ∨ s1.reads = (l, c) :: s.reads) ∨
    (fb = true ∧ l ≠ lit "en" ∧
      lookupFuel (n + 1) fs s l c fb = lookupFuel n fs (s.logRead l c) (lit "en") c false) := by
  cases hp : s.samplesCache.pool l c with
  | some p =>
    refine Or.inl ⟨fun m => ?_, ?_, ?_⟩
    · rw [lookupFuel_cached m fs s l c fb p hp, lookupFuel_cached 0 fs s l c fb p hp]
    · rw [lookupFuel_cached 0 fs s l c fb p hp]; exact pick_ne_outOfFuel s p
    · intro v s1 h
      rw [lookupFuel_cached 0 fs s l c fb p hp] at h
      obtain ⟨_, r1, rfl⟩ := pick_state _ _ _ _ h
      exact Or.inl rfl
  | none =>
    cases hr : fs s.useExternalData (fullpath l c) with
    | content d =>
      refine Or.inl ⟨fun m => ?_, ?_, ?_⟩
      · rw [lookupFuel_content m fs s l c fb d hp hr, lookupFuel_content 0 fs s l c fb d hp hr]
      · rw [lookupFuel_content 0 fs s l c fb d hp hr]; exact pick_ne_outOfFuel _ _
      · intro v s1 h
        rw [lookupFuel_content 0 fs s l c fb d hp hr] at h
        obtain ⟨_, r1, rfl⟩ := pick_state _ _ _ _ h
        exact Or.inr rfl
    | absent =>
      have he : (fs s.useExternalData (fullpath l c)).failure l =
          some (ErrNoSamplesFn l) := by rw [hr]; rfl
      by_cases hf : fallsBack s l fb (ErrNoSamplesFn l)
      · exact Or.inr ⟨hf.2.1, hf.1, lookupFuel_fallback n fs s l c fb _ hp he hf⟩
      · refine Or.inl ⟨fun m => ?_, ?_, ?_⟩
        · rw [lookupFuel_fail m fs s l c fb _ hp he hf, lookupFuel_fail 0 fs s l c fb _ hp he hf]
        · rw [lookupFuel_fail 0 fs s l c fb _ hp he hf]; simp
        · intro v s1 h
          rw [lookupFuel_fail 0 fs s l c fb _ hp he hf] at h
          simp only [Except.ok.injEq, Prod.mk.injEq] at h
          exact Or.inr (h.2 ▸ rfl)
    | unreadable msg =>
      have he : (fs s.useExternalData (fullpath l c)).failure l = some msg := by rw [hr]; rfl
      by_cases hf : fallsBack s l fb msg
      · exact Or.inr ⟨hf.2.1, hf.1, lookupFuel_fallback n fs s l c fb _ hp he hf⟩
      · refine Or.inl ⟨fun m => ?_, ?_, ?_⟩
        · rw [lookupFuel_fail m fs s l c fb _ hp he hf, lookupFuel_fail 0 fs s l c fb _ hp he hf]
        · rw [lookupFuel_fail 0 fs s l c fb _ hp he hf]; simp
        · intro v s1 h
          rw [lookupFuel_fail 0 fs s l c fb _ hp he hf] at h
          simp only [Except.ok.injEq, Prod.mk.injEq] at h
          exact Or.inr (h.2 ▸ rfl)

/-- C13: `lookup` terminates on every input and every state: a recursion depth of
two is enough whatever budget is given, so the result never is the exhausted
budget.  It makes at most one recursive call: either it returns without
recursion, or its result is that of the call on "en" with fallback false made
after the failed read; a call with fallback false, and a call on "en", returns
without recursion.  A top-level `lookup` that returns has invoked the
Resource Reader at most twice, and in a reachable state it always returns. -/
theorem lookup_terminates (fs : DataSource) (s : State) (l c : GoStr) (fallback : Bool) :
    (∀ n, lookupFuel (n + 2) fs s l c fallback = lookup fs s l c fallback) ∧
    lookup fs s l c fallback ≠ Except.error Fault.outOfFuel ∧
    (lookupFuel 1 fs s l c fallback ≠ Except.error Fault.outOfFuel ∨
      lookup fs s l c fallback = lookupFuel 1 fs (s.logRead l c) (lit "en") c false) ∧
    (∀ (s2 : State) (l2 c2 : GoStr) (fb2 : Bool), l2 = lit "en" ∨ fb2 = false →
      lookupFuel 1 fs s2 l2 c2 fb2 ≠ Except.error Fault.outOfFuel) ∧
    (∀ v s1, lookup fs s l c fallback = Except.ok (v, s1) →
      ∃ new, s1.reads = new ++ s.reads ∧ new.length ≤ 2) ∧
    (Reachable s → ∃ v s1, lookup fs s l c fallback = Except.ok (v, s1)) := by
  have hret : Reachable s → ∃ v s1, lookup fs s l c fallback = Except.ok (v, s1) :=
    fun hr => lookup_returns fs s l c fallback hr.pools_ne_nil
  have hno : ∀ (s2 : State) (l2 c2 : GoStr) (fb2 : Bool), l2 = lit "en" ∨ fb2 = false →
      lookupFuel 1 fs s2 l2 c2 fb2 ≠ Except.error Fault.outOfFuel := by
    intro s2 l2 c2 fb2 h
    rcases lookupFuel_succ_cases 0 fs s2 l2 c2 fb2 with h1 | ⟨hfb, hl, _⟩
    · exact h1.2.1
    · rcases h with h | h
      · exact absurd h hl
      · rw [h] at hfb; cases hfb
  unfold lookup
  rcases lookupFuel_succ_cases 1 fs s l c fallback with h1 | ⟨_, _, h2⟩
  · obtain ⟨hall, hne, hreads⟩ := h1
    refine ⟨fun n => ?_, ?_, Or.inl hne, hno, ?_, hret⟩
    · rw [hall (n + 1), hall 1]
    · rw [hall 1]; exact hne
    · intro v s1 h
      rw [hall 1] at h
      rcases hreads v s1 h with hr | hr
      · exact ⟨[], by simp [hr], by simp⟩
      · exact ⟨[(l, c)], by simp [hr], by simp⟩
  · obtain ⟨hen, hne⟩ := lookupFuel_one_en fs (s.logRead l c) c false 0
    refine ⟨fun n => ?_, ?_, Or.inr h2, hno, ?_, hret⟩
    · rcases lookupFuel_succ_cases (n + 1) fs s l c fallback with h1 | ⟨_, _, h3⟩
      · rw [h1.1 (n + 1), h1.1 1]
      · rw [h3, h2, (lookupFuel_one_en fs (s.logRead l c) c false n).1]
    · rw [h2]; exact hne
    · intro v s1 h
      rw [h2] at h
      rcases lookupFuel_succ_cases 0 fs (s.logRead l c) (lit "en") c false with h1 | ⟨hfb, _, _⟩
      · rcases h1.2.2 v s1 h with hr | hr
        · exact ⟨[(l, c)], by simp [hr, State.logRead], by simp⟩
        · exact ⟨[(lit "en", c), (l, c)], by simp [hr, State.logRead], by simp⟩
      · cases hfb

/-! ## C14: the cache only grows -/

theorem populateSamples_grows (fs : DataSource) (s : State) (lang cat : GoStr)
    (h : s.samplesCache.pool lang cat = none) :
    Grows s (populateSamples fs s lang cat).2 := by
  cases hr : fs s.useExternalData (fullpath lang cat) with
  | content d =>
    rw [populateSamples_ok fs s lang cat d hr]
    exact Grows.of_stored s lang cat d h
  | absent =>
    rw [populateSamples_fail fs s lang cat (ErrNoSamplesFn lang) (by rw [hr]; rfl)]
    exact Grows.of_logRead s lang cat
  | unreadable m =>
    rw [populateSamples_fail fs s lang cat m (by rw [hr]; rfl)]
    exact Grows.of_logRead s lang cat

/-- C14 (amended): the Sample Cache is append-only: for `lookup`, `generate`,
`SetLang`, `EnFallback` and `UseExternalData` in every state, and for
`populateSamples` in every state in which the key path it is called on is not
cached (the only way `lookup` calls it), each (language, category) key path
present in the cache before the operation is still present afterwards and holds
the identical pool. -/
theorem cache_is_append_only (s : State) (l c : GoStr) (p : List GoStr)
    (hp : s.samplesCache.pool l c = some p) :
    (∀ (fs : DataSource) lang cat fallback v s1,
      lookup fs s lang cat fallback = Except.ok (v, s1) →
        s1.samplesCache.pool l c = some p) ∧
    (∀ (fs : DataSource) lag cat fallback v s1,
      generate fs s lag cat fallback = Except.ok (v, s1) →
        s1.samplesCache.pool l c = some p) ∧
    (∀ (fs : DataSource) lang cat, s.samplesCache.pool lang cat = none →
      (populateSamples fs s lang cat).2.samplesCache.pool l c = some p) ∧
    (∀ newLang, (SetLang s newLang).2.samplesCache.pool l c = some p) ∧
    (∀ flag, (EnFallback s flag).samplesCache.pool l c = some p) ∧
    (∀ flag, (UseExternalData s flag).samplesCache.pool l c = some p) := by
  refine ⟨?_, ?_, ?_, ?_, fun _ => hp, fun _ => hp⟩
  · intro fs lang cat fb v s1 h
    exact (lookupFuel_state 2 fs s lang cat fb v s1 h).1.keeps l c p hp
  · intro fs lag cat fb v s1 h
    exact (generate_state fs s lag cat fb v s1 h).1.keeps l c p hp
  · intro fs lang cat hnone
    exact (populateSamples_grows fs s lang cat hnone).keeps l c p hp
  · intro newLang
    exact (Step.setLang s newLang).grows.1.keeps l c p hp

/-- C14, an instance: the pool cached under ("fr", "x") in `frCached`. -/
theorem cache_is_append_only_witness :
    frCached.samplesCache.pool (lit "fr") (lit "x") = some [lit "bonjour"] ∧
    ((∀ (fs : DataSource) lang cat fallback v s1,
      lookup fs frCached lang cat fallback = Except.ok (v, s1) →
        s1.samplesCache.pool (lit "fr") (lit "x") = some [lit "bonjour"]) ∧
    (∀ (fs : DataSource) lag cat fallback v s1,
      generate fs frCached lag cat fallback = Except.ok (v, s1) →
        s1.samplesCache.pool (lit "fr") (lit "x") = some [lit "bonjour"]) ∧
    (∀ (fs : DataSource) lang cat, frCached.samplesCache.pool lang cat = none →
      (populateSamples fs frCached lang cat).2.samplesCache.pool (lit "fr") (lit "x") =
        some [lit "bonjour"]) ∧
    (∀ newLang, (SetLang frCached newLang).2.samplesCache.pool (lit "fr") (lit "x") =
      some [lit "bonjour"]) ∧
    (∀ flag, (EnFallback frCached flag).samplesCache.pool (lit "fr") (lit "x") =
      some [lit "bonjour"]) ∧
    (∀ flag, (UseExternalData frCached flag).samplesCache.pool (lit "fr") (lit "x") =
      some [lit "bonjour"])) :=
  ⟨by decide, cache_is_append_only frCached (lit "fr") (lit "x") [lit "bonjour"] (by decide)⟩

/-- C14 fails as stated: in the state `frCached` the key path ("fr", "x") holds
the pool `bonjour`; `populateSamples("fr", "x")`, run there on a data source
whose `/data/fr/x` holds `salut`, replaces that pool. -/
theorem populateSamples_overwrites_counterexample :
    frCached.samplesCache.pool (lit "fr") (lit "x") = some [lit "bonjour"] ∧
    (populateSamples (oneFile (lit "/data/fr/x") (lit "salut")) frCached (lit "fr")
      (lit "x")).2.samplesCache.pool (lit "fr") (lit "x") = some [lit "salut"] ∧
    [lit "salut"] ≠ [lit "bonjour"] := by
  decide

/-! ## C15: `hasKeyPath` -/

/-- C15: for every cache st, language L and category C, `st.hasKeyPath(L, C)` is
true if and only if L is a key of st and C is a key of `st[L]`; in particular it
is false when L is present but C is not present under L, and when L is not
present. -/
theorem hasKeyPath_iff_both_levels (st : samplesTree) (L C : GoStr) :
    (st.hasKeyPath L C = true ↔ ∃ inner, st L = some inner ∧ ∃ pool, inner C = some pool) ∧
    (∀ inner, st L = some inner → inner C = none → st.hasKeyPath L C = false) ∧
    (st L = none → st.hasKeyPath L C = false) := by
  unfold samplesTree.hasKeyPath
  cases hl : st L with
  | none => simp
  | some inner =>
    cases hc : inner C with
    | none => simp [hc]
    | some pool => simp [hc]

/-! ## C16: the language argument of `generate` -/

/-- C16: `generate` ignores its language argument: for every category, fallback
value, state and sequence of random draws, and for any two values lag1 and lag2
of the first parameter, `generate(lag1, cat, fallback)` and
`generate(lag2, cat, fallback)` give the same outcome, so the same string and
the same cache; the format is resolved under the current language `lang` of the
state, and the outcome is the one of passing that language. -/
theorem generate_ignores_language_argument (fs : DataSource) (s : State)
    (lag1 lag2 cat : GoStr) (fallback : Bool) :
    generate fs s lag1 cat fallback = generate fs s lag2 cat fallback ∧
    value (generate fs s lag1 cat fallback) = value (generate fs s lag2 cat fallback) ∧
    (∀ v1 s1 v2 s2, generate fs s lag1 cat fallback = Except.ok (v1, s1) →
      generate fs s lag2 cat fallback = Except.ok (v2, s2) →
      v1 = v2 ∧ s1.samplesCache = s2.samplesCache) ∧
    generate fs s lag1 cat fallback = generate fs s s.lang cat fallback ∧
    (∀ f s1, lookup fs s s.lang (cat ++ lit "_format") fallback = Except.ok (f, s1) →
      ∃ out r1, generate fs s lag1 cat fallback = Except.ok (out, { s1 with r := r1 })) := by
  refine ⟨rfl, rfl, ?_, rfl, ?_⟩
  · intro v1 s1 v2 s2 h1 h2
    have h : generate fs s lag1 cat fallback = generate fs s lag2 cat fallback := rfl
    rw [h1, h2] at h
    simp only [Except.ok.injEq, Prod.mk.injEq] at h
    exact ⟨h.1, by rw [h.2]⟩
  · intro f s1 h
    obtain ⟨out, r1, hg, _⟩ := generate_of_lookup fs s lag1 cat fallback f s1 h
    exact ⟨out, r1, hg⟩

/-! ## C17: what a fallback leaves in the cache -/

theorem lookup_reads_uncached (fs : DataSource) (s : State) (l c : GoStr) (fb : Bool)
    (v : GoStr) (s1 : State) (hc : s.samplesCache.pool l c = none)
    (h : lookup fs s l c fb = Except.ok (v, s1)) :
    ∃ new, s1.reads = new ++ (l, c) :: s.reads := by
  unfold lookup at h
  have hfail : ∀ e, (fs s.useExternalData (fullpath l c)).failure l = some e →
      ∃ new, s1.reads = new ++ (l, c) :: s.reads := by
    intro e he
    by_cases hf : fallsBack s l fb e
    · rw [lookupFuel_fallback 1 fs s l c fb e hc he hf] at h
      rcases lookupFuel_succ_cases 0 fs (s.logRead l c) (lit "en") c false with h1 | ⟨hfb, _, _⟩
      · rcases h1.2.2 v s1 h with hr | hr
        · exact ⟨[], by simp [hr, State.logRead]⟩
        · exact ⟨[(lit "en", c)], by simp [hr, State.logRead]⟩
      · cases hfb
    · rw [lookupFuel_fail 1 fs s l c fb e hc he hf] at h
      simp only [Except.ok.injEq, Prod.mk.injEq] at h
      exact ⟨[], by rw [← h.2]; rfl⟩
  cases hr : fs s.useExternalData (fullpath l c) with
  | content d =>
    rw [lookupFuel_content 1 fs s l c fb d hc hr] at h
    obtain ⟨_, r1, rfl⟩ := pick_state _ _ _ _ h
    exact ⟨[], rfl⟩
  | absent => exact hfail _ (by rw [hr]; rfl)
  | unreadable m => exact hfail m (by rw [hr]; rfl)

/-- C17 (amended): for every language L different from "en" and category C with
no resource for (L, C) and a readable resource for ("en", C), in every reachable
state in which (L, C) is not cached, after `lookup(L, C, true)` with the
process-wide fallback flag enabled the cache has the key path ("en", C) and does
not have the key path (L, C); so the next `lookup(L, C, _)`, and every later one
made while (L, C) is still not cached, invokes the Resource Reader for (L, C)
again. -/
theorem fallback_caches_en_only (fs : DataSource) (s : State) (L C D : GoStr)
    (hr : Reachable s) (hL : L ≠ lit "en")
    (hno : fs s.useExternalData (fullpath L C) = Resource.absent)
    (hen : fs s.useExternalData (fullpath (lit "en") C) = Resource.content D)
    (hflag : s.enFallback = true)
    (hc : s.samplesCache.pool L C = none) :
    ∃ v s1, lookup fs s L C true = Except.ok (v, s1) ∧
      s1.samplesCache.hasKeyPath (lit "en") C = true ∧
      s1.samplesCache.hasKeyPath L C = false ∧
      (∀ (fs2 : DataSource) fb2 v2 s3, lookup fs2 s1 L C fb2 = Except.ok (v2, s3) →
        ∃ new, s3.reads = new ++ (L, C) :: s1.reads) ∧
      ∀ s2, Steps s1 s2 → s2.samplesCache.hasKeyPath L C = false →
        ∀ (fs2 : DataSource) fb2 v2 s3, lookup fs2 s2 L C fb2 = Except.ok (v2, s3) →
          ∃ new, s3.reads = new ++ (L, C) :: s2.reads := by
  obtain ⟨v, s1, hlook⟩ := lookup_returns fs s L C true hr.pools_ne_nil
  have hfb : fallsBack s L true (ErrNoSamplesFn L) := ⟨hL, rfl, hflag, rfl⟩
  have hstep : lookup fs s L C true =
      lookupFuel 1 fs (s.logRead L C) (lit "en") C false :=
    lookupFuel_fallback 1 fs s L C true _ hc (by rw [hno]; rfl) hfb
  have hne : (lit "en", C) ≠ (L, C) := fun h => hL (congrArg Prod.fst h).symm
  have hboth : s1.samplesCache.pool (lit "en") C ≠ none ∧ s1.samplesCache.pool L C = none := by
    rw [hstep] at hlook
    cases hp : s.samplesCache.pool (lit "en") C with
    | some p =>
      have hp1 : (s.logRead L C).samplesCache.pool (lit "en") C = some p := hp
      rw [lookupFuel_cached 0 fs _ _ C false p hp1] at hlook
      obtain ⟨_, r1, rfl⟩ := pick_state _ _ _ _ hlook
      exact ⟨by rw [hp1]; simp, hc⟩
    | none =>
      have hp1 : (s.logRead L C).samplesCache.pool (lit "en") C = none := hp
      have hen1 : fs (s.logRead L C).useExternalData (fullpath (lit "en") C) =
          Resource.content D := hen
      rw [lookupFuel_content 0 fs _ _ C false D hp1 hen1] at hlook
      obtain ⟨_, r1, rfl⟩ := pick_state _ _ _ _ hlook
      have key : ∀ l c, ((s.logRead L C).stored (lit "en") C (poolOf D)).samplesCache.pool l c =
          if l = lit "en" ∧ c = C then some (poolOf D) else s.samplesCache.pool l c :=
        fun l c => pool_populated _ _ _ _ _ _
      constructor
      · show ((s.logRead L C).stored (lit "en") C (poolOf D)).samplesCache.pool _ _ ≠ none
        rw [key]; simp
      · show ((s.logRead L C).stored (lit "en") C (poolOf D)).samplesCache.pool _ _ = none
        rw [key, if_neg (fun h => hL h.1)]
        exact hc
  have hkL : s1.samplesCache.hasKeyPath L C = false := hasKeyPath_of_none _ _ _ hboth.2
  have hkE : s1.samplesCache.hasKeyPath (lit "en") C = true := by
    rw [hasKeyPath_eq]
    cases hq : s1.samplesCache.pool (lit "en") C with
    | none => exact absurd hq hboth.1
    | some q => rfl
  have hlater : ∀ s2, s2.samplesCache.hasKeyPath L C = false →
      ∀ (fs2 : DataSource) fb2 v2 s3, lookup fs2 s2 L C fb2 = Except.ok (v2, s3) →
        ∃ new, s3.reads = new ++ (L, C) :: s2.reads := by
    intro s2 hk fs2 fb2 v2 s3 h
    have hnone : s2.samplesCache.pool L C = none := by
      rw [hasKeyPath_eq] at hk
      cases hq : s2.samplesCache.pool L C with
      | none => rfl
      | some q => rw [hq] at hk; cases hk
    exact lookup_reads_uncached fs2 s2 L C fb2 v2 s3 hnone h
  exact ⟨v, s1, hlook, hkE, hkL, hlater s1 hkL, fun s2 _ hk => hlater s2 hk⟩

/-- C17, an instance: a fresh package whose only file is `/data/en/x`, asked for
("fr", "x"). -/
theorem fallback_caches_en_only_witness :
    (Reachable freshState ∧ lit "fr" ≠ lit "en" ∧
      oneFile (lit "/data/en/x") (lit "hello") freshState.useExternalData
        (fullpath (lit "fr") (lit "x")) = Resource.absent ∧
      oneFile (lit "/data/en/x") (lit "hello") freshState.useExternalData
        (fullpath (lit "en") (lit "x")) = Resource.content (lit "hello") ∧
      freshState.enFallback = true ∧
      freshState.samplesCache.pool (lit "fr") (lit "x") = none) ∧
    ∃ v s1, lookup (oneFile (lit "/data/en/x") (lit "hello")) freshState (lit "fr") (lit "x")
        true = Except.ok (v, s1) ∧
      s1.samplesCache.hasKeyPath (lit "en") (lit "x") = true ∧
      s1.samplesCache.hasKeyPath (lit "fr") (lit "x") = false ∧
      (∀ (fs2 : DataSource) fb2 v2 s3,
        lookup fs2 s1 (lit "fr") (lit "x") fb2 = Except.ok (v2, s3) →
        ∃ new, s3.reads = new ++ (lit "fr", lit "x") :: s1.reads) ∧
      ∀ s2, Steps s1 s2 → s2.samplesCache.hasKeyPath (lit "fr") (lit "x") = false →
        ∀ (fs2 : DataSource) fb2 v2 s3,
          lookup fs2 s2 (lit "fr") (lit "x") fb2 = Except.ok (v2, s3) →
          ∃ new, s3.reads = new ++ (lit "fr", lit "x") :: s2.reads :=
  ⟨⟨freshState_reachable, by decide, by decide, by decide, by decide, by decide⟩,
    fallback_caches_en_only _ freshState (lit "fr") (lit "x") (lit "hello")
      freshState_reachable (by decide) (by decide) (by decide) (by decide) (by decide)⟩

theorem staleAfter_eq :
    lookup twoModes staleState (lit "fr") (lit "x") true =
      Except.ok (lit "bonjour", staleAfter) :=
  rfl

theorem enViaFallback_eq :
    lookup twoModes extFresh (lit "fr") (lit "x") true =
      Except.ok (lit "hello", enViaFallback) :=
  rfl

theorem frLater_eq :
    lookup twoModes (UseExternalData enViaFallback false) (lit "fr") (lit "x") true =
      Except.ok (lit "bonjour", frLater) :=
  rfl

theorem extAgain_later : Steps enViaFallback extAgain :=
  Steps.tail _ _ _
    (Steps.tail _ _ _
      (Steps.tail _ _ _ (Steps.refl _) (Step.useExternalData enViaFallback false))
      (Step.lookup twoModes _ (lit "fr") (lit "x") true _ _ frLater_eq))
    (Step.useExternalData frLater true)

/-- C17 fails as stated, twice.  In the reachable state `staleState`, with no
resource for ("fr", "x"), a resource for ("en", "x") and the flag enabled, the
lookup of ("fr", "x") leaves a cache that has the key path ("fr", "x") and does
not have ("en", "x").  And after the fallback-answered lookup that leads from
`extFresh` to `enViaFallback`, a later lookup of ("fr", "x"), made in the state
`extAgain` where again no resource exists for ("fr", "x"), one exists for
("en", "x") and the flag is enabled, invokes no Resource Reader at all. -/
theorem fallback_caches_en_only_counterexample :
    (Reachable staleState ∧
      twoModes staleState.useExternalData (fullpath (lit "fr") (lit "x")) = Resource.absent ∧
      twoModes staleState.useExternalData (fullpath (lit "en") (lit "x")) =
        Resource.content (lit "hello") ∧
      staleState.enFallback = true ∧
      lookup twoModes staleState (lit "fr") (lit "x") true =
        Except.ok (lit "bonjour", staleAfter) ∧
      staleAfter.samplesCache.hasKeyPath (lit "fr") (lit "x") = true ∧
      staleAfter.samplesCache.hasKeyPath (lit "en") (lit "x") = false) ∧
    (twoModes extFresh.useExternalData (fullpath (lit "fr") (lit "x")) = Resource.absent ∧
      twoModes extFresh.useExternalData (fullpath (lit "en") (lit "x")) =
        Resource.content (lit "hello") ∧
      extFresh.enFallback = true ∧
      extFresh.samplesCache.hasKeyPath (lit "fr") (lit "x") = false ∧
      lookup twoModes extFresh (lit "fr") (lit "x") true =
        Except.ok (lit "hello", enViaFallback) ∧
      Steps enViaFallback extAgain ∧
      twoModes extAgain.useExternalData (fullpath (lit "fr") (lit "x")) = Resource.absent ∧
      twoModes extAgain.useExternalData (fullpath (lit "en") (lit "x")) =
        Resource.content (lit "hello") ∧
      extAgain.enFallback = true ∧
      readsOf (lookup twoModes extAgain (lit "fr") (lit "x") true) = some extAgain.reads) :=
  ⟨⟨staleState_reachable, by decide, by decide, by decide, staleAfter_eq, by decide,
      by decide⟩,
    by decide, by decide, by decide, by decide, enViaFallback_eq, extAgain_later, by decide,
    by decide, by decide, by decide⟩

/-! ## C18: a failed lookup leaves the cache alone -/

/-- C18: whenever `lookup` returns through a failure path, that is the key path
is not cached, the reader fails for the requested language, and either no
fallback is attempted or the fallback finds ("en", C) not cached and the read of
"en" fails too, it returns the empty string and the Sample Cache after the call
is equal to the Sample Cache before it; in particular no inner map, empty or
not, is created for the requested language. -/
theorem failed_lookup_keeps_cache (fs : DataSource) (s : State) (L C : GoStr)
    (fallback : Bool) (e : GoStr)
    (hc : s.samplesCache.pool L C = none)
    (he : (fs s.useExternalData (fullpath L C)).failure L = some e)
    (h : ¬ fallsBack s L fallback e ∨
      (fallsBack s L fallback e ∧ s.samplesCache.pool (lit "en") C = none ∧
        ∃ e2, (fs s.useExternalData (fullpath (lit "en") C)).failure (lit "en") = some e2)) :
    ∃ s1, lookup fs s L C fallback = Except.ok ([], s1) ∧
      s1.samplesCache = s.samplesCache ∧
      s1.samplesCache L = s.samplesCache L ∧
      (s.samplesCache L = none → s1.samplesCache L = none) := by
  rcases h with hf | ⟨hf, hen, e2, he2⟩
  · exact ⟨s.logRead L C, lookupFuel_fail 1 fs s L C fallback e hc he hf, rfl, rfl,
      fun h => h⟩
  · refine ⟨(s.logRead L C).logRead (lit "en") C, ?_, rfl, rfl, fun h => h⟩
    rw [lookup, lookupFuel_fallback 1 fs s L C fallback e hc he hf]
    exact lookupFuel_fail 0 fs (s.logRead L C) (lit "en") C false e2 hen he2
      (fun hfb => hfb.1 rfl)

/-- C18, an instance: a fresh package without any file, asked for ("fr", "x")
with fallback: both reads fail. -/
theorem failed_lookup_keeps_cache_witness :
    (freshState.samplesCache.pool (lit "fr") (lit "x") = none ∧
      (noFiles freshState.useExternalData (fullpath (lit "fr") (lit "x"))).failure (lit "fr") =
        some (ErrNoSamplesFn (lit "fr")) ∧
      fallsBack freshState (lit "fr") true (ErrNoSamplesFn (lit "fr")) ∧
      freshState.samplesCache.pool (lit "en") (lit "x") = none) ∧
    ∃ s1, lookup noFiles freshState (lit "fr") (lit "x") true = Except.ok ([], s1) ∧
      s1.samplesCache = freshState.samplesCache ∧
      s1.samplesCache (lit "fr") = freshState.samplesCache (lit "fr") ∧
      (freshState.samplesCache (lit "fr") = none → s1.samplesCache (lit "fr") = none) :=
  ⟨⟨by decide, rfl, by decide, by decide⟩,
    failed_lookup_keeps_cache noFiles freshState (lit "fr") (lit "x") true
      (ErrNoSamplesFn (lit "fr")) (by decide) rfl
      (Or.inr ⟨by decide, by decide, ErrNoSamplesFn (lit "en"), rfl⟩)⟩

/-! ## C19: a read error is not a missing resource -/

/-- C19: if the resource of (L, C) opens but reading it fails with an error whose
message differs from the not-found message for L, then the `lookup(L, C, true)`
that reads it (the key path is not cached) returns the empty string without
consulting "en": its only Resource Reader call is the one for (L, C) and the
cache is unchanged, even when L is not "en", the process-wide fallback flag is
enabled and a resource for ("en", C) exists. -/
theorem read_error_does_not_fall_back (fs : DataSource) (s : State) (L C msg : GoStr)
    (hc : s.samplesCache.pool L C = none)
    (hr : fs s.useExternalData (fullpath L C) = Resource.unreadable msg)
    (hm : msg ≠ ErrNoSamplesFn L) :
    ∃ s1, lookup fs s L C true = Except.ok ([], s1) ∧
      s1.reads = (L, C) :: s.reads ∧ s1.samplesCache = s.samplesCache := by
  refine ⟨s.logRead L C, ?_, rfl, rfl⟩
  exact lookupFuel_fail 1 fs s L C true msg hc (by rw [hr]; rfl) (fun hf => hm hf.2.2.2)

/-- C19, an instance: `/data/fr/x` opens but reading it fails with the message
`unexpected EOF`, while `/data/en/x` holds `hello` and the flag is enabled. -/
theorem read_error_does_not_fall_back_witness :
    (freshState.samplesCache.pool (lit "fr") (lit "x") = none ∧
      brokenFr (lit "unexpected EOF") freshState.useExternalData
        (fullpath (lit "fr") (lit "x")) = Resource.unreadable (lit "unexpected EOF") ∧
      lit "unexpected EOF" ≠ ErrNoSamplesFn (lit "fr") ∧
      lit "fr" ≠ lit "en" ∧ freshState.enFallback = true ∧
      brokenFr (lit "unexpected EOF") freshState.useExternalData
        (fullpath (lit "en") (lit "x")) = Resource.content (lit "hello")) ∧
    ∃ s1, lookup (brokenFr (lit "unexpected EOF")) freshState (lit "fr") (lit "x") true =
        Except.ok ([], s1) ∧
      s1.reads = (lit "fr", lit "x") :: freshState.reads ∧
      s1.samplesCache = freshState.samplesCache :=
  ⟨⟨by decide, by decide, by decide, by decide, by decide, by decide⟩,
    read_error_does_not_fall_back (brokenFr (lit "unexpected EOF")) freshState (lit "fr")
      (lit "x") (lit "unexpected EOF") (by decide) (by decide) (by decide)⟩

end Fake
